import Mathlib

/-!
Verification development for a minimal x86-64 encoder and IR lifetime
analyzer (a single C file: an in-memory assembler with labels and
relocations, plus a three-address-code variable lifetime analysis).

The C code is shallowly embedded: the encoder's byte buffer is a
`List Nat` of byte values, its label table a `List Nat` of offsets and
its relocation table a `List X86Relocation`; every emitter is a pure
function from encoder state to encoder state.  The analyzer's arrays
are lists, and the in-place mutation of the C code becomes explicit
state passing.  Machine arithmetic is modelled on `Nat`/`Int` with
explicit reductions modulo 2^8 / 2^32 / 2^64 where the C code narrows.

One aspect of the C analyzer cannot be embedded deterministically: the
per-instruction info array is allocated with `malloc` and its
`jump_from` field is read before it is ever written (the source has no
initialization loop for it).  The embedding makes that indeterminacy
explicit: `analyse_function` takes a list `junk` holding the initial
(residual) contents of those slots, and theorems quantify over or pick
concrete residues.
-/

/-! ## Encoder state -/

/-- Relocation record: offset into the byte buffer, label id, and
whether the relocation is PC-relative (field `relative` of the C
struct, an int used as a boolean). -/
structure X86Relocation where
  offset : Nat
  label : Nat
  relative : Bool
deriving DecidableEq

/-- Encoder state `struct x86_encoder`: byte buffer, label offsets and
relocation records.  Capacity fields of the C struct are memory
management only and have no observable counterpart here. -/
structure X86Encoder where
  buffer : List Nat
  labels : List Nat
  relocations : List X86Relocation
deriving DecidableEq

/-- The zeroed initial encoder (`memset(&enc, 0, sizeof enc)`). -/
def x86_encoder_init : X86Encoder := { buffer := [], labels := [], relocations := [] }

/-! ## Little-endian byte stores -/

/-- `k` little-endian bytes of `v` (the store through a `uintN_t`
pointer in the C code truncates to the low `8 k` bits). -/
def leBytes : Nat → Nat → List Nat
  | 0, _ => []
  | k + 1, v => v % 256 :: leBytes k (v / 256)

/-- Overwrite the `k` bytes of `buf` starting at `off` with the
little-endian representation of `v`. -/
def writeLE (buf : List Nat) (off k v : Nat) : List Nat :=
  buf.take off ++ leBytes k v ++ buf.drop (off + k)

/-- The unsigned 32-bit value stored little-endian at `off`. -/
def readLE32 (buf : List Nat) (off : Nat) : Nat :=
  buf.getD off 0 + 256 * buf.getD (off + 1) 0 + 65536 * buf.getD (off + 2) 0 +
    16777216 * buf.getD (off + 3) 0

/-- The signed 32-bit value stored little-endian at `off` (the
placeholder is declared `int32_t` in the C code). -/
def readSigned32 (buf : List Nat) (off : Nat) : Int :=
  if readLE32 buf off < 2 ^ 31 then (readLE32 buf off : Int)
  else (readLE32 buf off : Int) - 2 ^ 32

/-- Narrowing of an integer to signed 32 bits (the effect of storing
an out-of-range value through `int32_t`). -/
def narrow32 (d : Int) : Int := (d + 2 ^ 31) % 2 ^ 32 - 2 ^ 31

/-! ## Labels and relocations -/

/-- `x86_encoder_add_label`: reserve the next dense id and record the
current buffer size as its offset; the id is returned. -/
def x86_encoder_add_label (enc : X86Encoder) : Nat × X86Encoder :=
  (enc.labels.length, { enc with labels := enc.labels ++ [enc.buffer.length] })

/-- `x86_encoder_move_label`: overwrite the label's offset with the
current buffer size.  (The C code writes `labels[label]` unchecked; an
out-of-range id is out-of-bounds there and a no-op here.) -/
def x86_encoder_move_label (enc : X86Encoder) (label : Nat) : X86Encoder :=
  { enc with labels := enc.labels.set label enc.buffer.length }

/-- `x86_encoder_add_relocation`: record a relocation at the current
buffer position. -/
def x86_encoder_add_relocation (enc : X86Encoder) (label : Nat) (relative : Bool) :
    X86Encoder :=
  { enc with relocations := enc.relocations ++ [⟨enc.buffer.length, label, relative⟩] }

/-- Patch one relocation into `buf`: relative stores the 32-bit
narrowed displacement `label_offset - (offset + 4)`, absolute stores
the 64-bit value `base + label_offset`. -/
def x86_relocation_patch (labels : List Nat) (base : Nat) (buf : List Nat)
    (r : X86Relocation) : List Nat :=
  if r.relative then
    writeLE buf r.offset 4 (((labels.getD r.label 0 : Int) - ((r.offset : Int) + 4)) % 2 ^ 32).toNat
  else
    writeLE buf r.offset 8 (base + labels.getD r.label 0)

/-- The relocation loop of `x86_encoder_apply_relocations_in_memory`:
walk the records in order, returning 1 and stopping at the first
relocation whose label id is out of range, else 0.  The returned list
is the (possibly partially patched) target buffer. -/
def x86_encoder_apply_go (labels : List Nat) (base : Nat) :
    List Nat → List X86Relocation → Int × List Nat
  | buf, [] => (0, buf)
  | buf, r :: rs =>
    if labels.length ≤ r.label then (1, buf)
    else x86_encoder_apply_go labels base (x86_relocation_patch labels base buf r) rs

/-- `x86_encoder_apply_relocations_in_memory`: patch every recorded
relocation into `tbuf`; result code 1 means an unknown label was hit. -/
def x86_encoder_apply_relocations_in_memory (enc : X86Encoder) (tbuf : List Nat)
    (base : Nat) : Int × List Nat :=
  x86_encoder_apply_go enc.labels base tbuf enc.relocations

/-- `x86_encoder_apply_relocations`: apply in place to the encoder's
own buffer. -/
def x86_encoder_apply_relocations (enc : X86Encoder) (base : Nat) : Int × List Nat :=
  x86_encoder_apply_relocations_in_memory enc enc.buffer base

/-! ## ModR/M and REX helpers -/

/-- `X86_REX_FIELD(b, x, r, w)`: the REX byte `0100WRXB`. -/
def x86_rex_field (b x r w : Bool) : Nat :=
  0x40 + (if b then 1 else 0) + (if x then 2 else 0) + (if r then 4 else 0) +
    (if w then 8 else 0)

/-- The packed ModR/M byte `mod(2) | reg(3) | rm(3)` (bitfield layout
low-to-high: rm, reg, mod). -/
def x86_modrm_byte (rm reg md : Nat) : Nat := rm % 8 + 8 * (reg % 8) + 64 * (md % 4)

/-- `_x86_encoder_prepare_modrm_rex`: the three bytes REX, opcode,
ModR/M with mod = 0b11, B from the high bit of `rm`, R from the high
bit of `reg`, X always clear. -/
def x86_prepare_modrm_rex (opcode rm reg : Nat) (wide : Bool) : List Nat :=
  [x86_rex_field (rm &&& 0x08 != 0) false (reg &&& 0x08 != 0) wide,
   opcode % 256,
   x86_modrm_byte (rm &&& 0x07) (reg &&& 0x07) 0x03]

/-- `x86_encoder_write_modrm_rex`: append REX, opcode, ModR/M. -/
def x86_encoder_write_modrm_rex (enc : X86Encoder) (opcode rm reg : Nat)
    (wide : Bool) : X86Encoder :=
  { enc with buffer := enc.buffer ++ x86_prepare_modrm_rex opcode rm reg wide }

/-- `x86_encoder_write_modrm`: 64-bit form (REX.W set). -/
def x86_encoder_write_modrm (enc : X86Encoder) (opcode reg_1 reg_2 : Nat) : X86Encoder :=
  x86_encoder_write_modrm_rex enc opcode reg_1 reg_2 true

/-- `x86_encoder_write_modrm_32`: 32-bit form (REX still emitted, W clear). -/
def x86_encoder_write_modrm_32 (enc : X86Encoder) (opcode reg_1 reg_2 : Nat) : X86Encoder :=
  x86_encoder_write_modrm_rex enc opcode reg_1 reg_2 false

/-- `x86_encoder_write_modrm_16`: operand-size override 0x66, then the
32-bit-style REX/opcode/ModR/M triple. -/
def x86_encoder_write_modrm_16 (enc : X86Encoder) (opcode reg_1 reg_2 : Nat) : X86Encoder :=
  { enc with buffer := enc.buffer ++ 0x66 :: x86_prepare_modrm_rex opcode reg_1 reg_2 false }

/-- `x86_encoder_write_modrm_8`: opcode decremented by one (the C code
computes `opcode - 1` on a char, i.e. modulo 256), W clear. -/
def x86_encoder_write_modrm_8 (enc : X86Encoder) (opcode reg_1 reg_2 : Nat) : X86Encoder :=
  x86_encoder_write_modrm_rex enc ((opcode + 255) % 256) reg_1 reg_2 false

/-! ## Jumps, calls, moves, stack, misc -/

/-- `x86_encoder_write_jmp`: opcode E8 (call) or E9 (jmp), four zero
placeholder bytes, and a relative relocation recorded at the
placeholder's position. -/
def x86_encoder_write_jmp (enc : X86Encoder) (call : Bool) (label : Nat) : X86Encoder :=
  let enc1 : X86Encoder :=
    { enc with buffer := enc.buffer ++ [if call then 0xE8 else 0xE9] }
  let enc2 := x86_encoder_add_relocation enc1 label true
  { enc2 with buffer := enc2.buffer ++ [0, 0, 0, 0] }

/-- `x86_encoder_write_jmp_cond`: 0F, 80+cond, four zero placeholder
bytes, and a relative relocation at the placeholder. -/
def x86_encoder_write_jmp_cond (enc : X86Encoder) (cond label : Nat) : X86Encoder :=
  let enc1 : X86Encoder :=
    { enc with buffer := enc.buffer ++ [0x0F, (0x80 + cond) % 256] }
  let enc2 := x86_encoder_add_relocation enc1 label true
  { enc2 with buffer := enc2.buffer ++ [0, 0, 0, 0] }

/-- `x86_encoder_write_jmp_reg`: FF /4 (jmp) or FF /2 (call). -/
def x86_encoder_write_jmp_reg (enc : X86Encoder) (call : Bool) (reg : Nat) : X86Encoder :=
  x86_encoder_write_modrm_rex enc 0xFF reg (if call then 0x2 else 0x4) true

/-- `x86_encoder_write_cmp_reg`: CMP r/m64, r64. -/
def x86_encoder_write_cmp_reg (enc : X86Encoder) (reg_1 reg_2 : Nat) : X86Encoder :=
  x86_encoder_write_modrm_rex enc 0x39 reg_1 reg_2 true

/-- `x86_encoder_write_mov_imm_64`: REX.W, B8+reg, 8 immediate bytes. -/
def x86_encoder_write_mov_imm_64 (enc : X86Encoder) (reg value : Nat) : X86Encoder :=
  { enc with buffer := enc.buffer ++
      [x86_rex_field (reg &&& 0x08 != 0) false false true, 0xB8 + (reg &&& 0x07)] ++
      leBytes 8 value }

/-- `x86_encoder_write_mov_imm_32`: REX, B8+reg, 4 immediate bytes. -/
def x86_encoder_write_mov_imm_32 (enc : X86Encoder) (reg value : Nat) : X86Encoder :=
  { enc with buffer := enc.buffer ++
      [x86_rex_field (reg &&& 0x08 != 0) false false false, 0xB8 + (reg &&& 0x07)] ++
      leBytes 4 value }

/-- `x86_encoder_write_mov_imm_16`: 66, REX, B8+reg, 2 immediate bytes. -/
def x86_encoder_write_mov_imm_16 (enc : X86Encoder) (reg value : Nat) : X86Encoder :=
  { enc with buffer := enc.buffer ++
      [0x66, x86_rex_field (reg &&& 0x08 != 0) false false false, 0xB8 + (reg &&& 0x07)] ++
      leBytes 2 value }

/-- `x86_encoder_write_mov_imm_8`: REX, B0+reg, 1 immediate byte. -/
def x86_encoder_write_mov_imm_8 (enc : X86Encoder) (reg value : Nat) : X86Encoder :=
  { enc with buffer := enc.buffer ++
      [x86_rex_field (reg &&& 0x08 != 0) false false false, 0xB0 + (reg &&& 0x07),
       value % 256] }

/-- `x86_encoder_write_push`: REX, 50+reg. -/
def x86_encoder_write_push (enc : X86Encoder) (reg : Nat) : X86Encoder :=
  { enc with buffer := enc.buffer ++
      [x86_rex_field (reg &&& 0x08 != 0) false false false, 0x50 + (reg &&& 0x07)] }

/-- `x86_encoder_write_pop`: REX, 58+reg. -/
def x86_encoder_write_pop (enc : X86Encoder) (reg : Nat) : X86Encoder :=
  { enc with buffer := enc.buffer ++
      [x86_rex_field (reg &&& 0x08 != 0) false false false, 0x58 + (reg &&& 0x07)] }

/-- `x86_encoder_write_ret`: C3. -/
def x86_encoder_write_ret (enc : X86Encoder) : X86Encoder :=
  { enc with buffer := enc.buffer ++ [0xC3] }

/-- `x86_encoder_write_nop`: 90. -/
def x86_encoder_write_nop (enc : X86Encoder) : X86Encoder :=
  { enc with buffer := enc.buffer ++ [0x90] }

/-! ## Encoder call sequences -/

/-- One call of the encoder's public surface (labels and emitters), so
that properties can quantify over every finite call sequence. -/
inductive EncOp where
  | add_label : EncOp
  | move_label (label : Nat) : EncOp
  | jmp (call : Bool) (label : Nat) : EncOp
  | jmp_cond (cond label : Nat) : EncOp
  | jmp_reg (call : Bool) (reg : Nat) : EncOp
  | cmp_reg (reg_1 reg_2 : Nat) : EncOp
  | modrm (opcode reg_1 reg_2 : Nat) : EncOp
  | modrm_32 (opcode reg_1 reg_2 : Nat) : EncOp
  | modrm_16 (opcode reg_1 reg_2 : Nat) : EncOp
  | modrm_8 (opcode reg_1 reg_2 : Nat) : EncOp
  | mov_imm_64 (reg value : Nat) : EncOp
  | mov_imm_32 (reg value : Nat) : EncOp
  | mov_imm_16 (reg value : Nat) : EncOp
  | mov_imm_8 (reg value : Nat) : EncOp
  | push (reg : Nat) : EncOp
  | pop (reg : Nat) : EncOp
  | ret : EncOp
  | nop : EncOp
deriving DecidableEq

/-- Apply one call to the encoder state (the id `add_label` returns is
dropped here; it always equals the label count before the call). -/
def encoder_step (enc : X86Encoder) : EncOp → X86Encoder
  | .add_label => (x86_encoder_add_label enc).2
  | .move_label l => x86_encoder_move_label enc l
  | .jmp c l => x86_encoder_write_jmp enc c l
  | .jmp_cond c l => x86_encoder_write_jmp_cond enc c l
  | .jmp_reg c r => x86_encoder_write_jmp_reg enc c r
  | .cmp_reg a b => x86_encoder_write_cmp_reg enc a b
  | .modrm o a b => x86_encoder_write_modrm enc o a b
  | .modrm_32 o a b => x86_encoder_write_modrm_32 enc o a b
  | .modrm_16 o a b => x86_encoder_write_modrm_16 enc o a b
  | .modrm_8 o a b => x86_encoder_write_modrm_8 enc o a b
  | .mov_imm_64 r v => x86_encoder_write_mov_imm_64 enc r v
  | .mov_imm_32 r v => x86_encoder_write_mov_imm_32 enc r v
  | .mov_imm_16 r v => x86_encoder_write_mov_imm_16 enc r v
  | .mov_imm_8 r v => x86_encoder_write_mov_imm_8 enc r v
  | .push r => x86_encoder_write_push enc r
  | .pop r => x86_encoder_write_pop enc r
  | .ret => x86_encoder_write_ret enc
  | .nop => x86_encoder_write_nop enc

/-- Run a call sequence from the zeroed encoder. -/
def encoder_run (ops : List EncOp) : X86Encoder :=
  ops.foldl encoder_step x86_encoder_init

/-- Whether a call is `add_label` (for counting issued ids). -/
def encop_is_add_label : EncOp → Bool
  | .add_label => true
  | _ => false

/-! ## IR data model -/

/-- Operand of a three-address opcode.  The C struct carries a union of
typed immediate payloads sharing storage with `ref_id`; only the
`ref_id` view is ever read by the analyzer, so the payload is modelled
as that single field.  `type_info` is never read by the analyzer and is
omitted. -/
structure Operand where
  ref_id : Nat
  info_type : Nat
  info_flags : Nat
deriving DecidableEq

/-- A three-address opcode: type and operands target / primary 1 /
primary 2 (`operands[0..2]` of the C struct). -/
structure Opcode where
  type : Nat
  operand_target : Operand
  operand_primary_1 : Operand
  operand_primary_2 : Operand
deriving DecidableEq

/-- A function body: opcode sequence and the size of its variable
table.  The C struct's id, argument and return `TypeInfo` fields are
never read by `analyse_function` and are omitted. -/
structure Function where
  opcodes : List Opcode
  variables_size : Nat
deriving DecidableEq

def OPERAND_INFO_TYPE_IMMEDIATE : Nat := 0
def OPERAND_INFO_TYPE_VARIABLE : Nat := 1
def OPERAND_INFO_TYPE_ARGUMENT : Nat := 2
def OPERAND_FLAG_ADDRESS : Nat := 1
def OPERAND_FLAG_DEREFERENCE : Nat := 2

def OPCODE_NOP : Nat := 0
def OPCODE_COPY : Nat := 1
def OPCODE_ADD : Nat := 2
def OPCODE_NOT : Nat := 6
def OPCODE_BIT_NEG : Nat := 9
def OPCODE_GOTO_BASE : Nat := 16
def OPCODE_COMPARE_BASE : Nat := 24
def OPCODE_SET_ARGUMENT : Nat := 32
def OPCODE_CALL : Nat := 33
def OPCODE_RETURN : Nat := 34

def COMPARISON_ALWAYS : Nat := 0
def COMPARISON_EQUAL : Nat := 1

/-- A placeholder opcode used as the `getD` fallback; every indexed
opcode access in the analysed runs is in bounds. -/
def defaultOpcode : Opcode :=
  { type := OPCODE_NOP,
    operand_target := ⟨0, 0, 0⟩, operand_primary_1 := ⟨0, 0, 0⟩,
    operand_primary_2 := ⟨0, 0, 0⟩ }

/-- `opcode_is_jump`: type in the GOTO band `[16, 24)`. -/
def opcode_is_jump (x : Opcode) : Bool :=
  OPCODE_GOTO_BASE ≤ x.type && x.type < OPCODE_GOTO_BASE + 8

/-- `opcode_is_pure_assignment`: COPY or CALL. -/
def opcode_is_pure_assignment (x : Opcode) : Bool :=
  x.type == OPCODE_COPY || x.type == OPCODE_CALL

/-- `opcode_modifies_target_operand`: arithmetic/bitwise band `[1, 15]`,
compare band `[24, 32)`, or CALL. -/
def opcode_modifies_target_operand (x : Opcode) : Bool :=
  (1 ≤ x.type && x.type ≤ 15) ||
  (OPCODE_COMPARE_BASE ≤ x.type && x.type < OPCODE_COMPARE_BASE + 8) ||
  x.type == OPCODE_CALL

/-- `opcode_read_operand_primary_1`: every opcode except the bare
COMPARE base, the bare GOTO base and NOP. -/
def opcode_read_operand_primary_1 (x : Opcode) : Bool :=
  !(x.type == OPCODE_COMPARE_BASE || x.type == OPCODE_GOTO_BASE || x.type == OPCODE_NOP)

/-- `opcode_read_operand_primary_2`: primary 1 is read and the opcode
is none of RETURN, CALL, SET_ARGUMENT, BIT_NEG, NOT, COPY. -/
def opcode_read_operand_primary_2 (x : Opcode) : Bool :=
  opcode_read_operand_primary_1 x &&
  !(x.type == OPCODE_RETURN || x.type == OPCODE_CALL || x.type == OPCODE_SET_ARGUMENT ||
    x.type == OPCODE_BIT_NEG || x.type == OPCODE_NOT || x.type == OPCODE_COPY)

/-- `operand_is_variable`. -/
def operand_is_variable (o : Operand) : Bool :=
  o.info_type == OPERAND_INFO_TYPE_VARIABLE

/-- `operand_is_variable_address_load`, exactly as the C source writes
it: the flag test uses bitwise OR (`info_flags | OPERAND_FLAG_ADDRESS`),
not AND, so the flag word is ORed with a nonzero constant. -/
def operand_is_variable_address_load (o : Operand) : Bool :=
  operand_is_variable o && ((o.info_flags ||| OPERAND_FLAG_ADDRESS) != 0)

/-! ## Analysis records -/

/-- Per-instruction analysis record. -/
structure OpcodeInfo where
  previous_label : Int
  jump_from : Int
deriving DecidableEq

/-- Fallback for indexed reads of the info array (out-of-bounds reads
are undefined behaviour in the C code; analysed runs stay in bounds). -/
def defaultOpcodeInfo : OpcodeInfo := { previous_label := -1, jump_from := -1 }

/-- Variable flag bits, one Bool per bit of the C flag word
(PRUNED = 1, UNUSED = 2, ETERNAL = 4, UNINITIALIZED = 16). -/
structure VarFlags where
  pruned : Bool
  unused : Bool
  eternal : Bool
  uninitialized : Bool
deriving DecidableEq

/-- Per-variable analysis record. -/
structure VariableInfo where
  lifetime_start : Int
  lifetime_end : Int
  flags : VarFlags
deriving DecidableEq

/-- The initialization the analyzer performs for each variable slot:
start = end = -1, all flags clear. -/
def defaultVariableInfo : VariableInfo :=
  { lifetime_start := -1, lifetime_end := -1,
    flags := { pruned := false, unused := false, eternal := false, uninitialized := false } }

/-- Result of `analyse_function`: per-instruction and per-variable
records.  (The C field is named `variables`; Lean reserves that word,
so the field is `variable_infos` here.) -/
structure FunctionAnalysis where
  infos : List OpcodeInfo
  variable_infos : List VariableInfo
deriving DecidableEq

/-! ## Lifetime extension -/

/-- The inner `while (pos >= minimum)` walk of
`extend_variable_lifetime`: follow the `previous_label` chain downward,
raising `mjp` to any larger `jump_from` seen.  `fuel` bounds the walk;
in the analysed runs the chain strictly descends and the fuel supplied
never runs out (proved below). -/
def extend_scan (infos : List OpcodeInfo) (minimum : Int) : Int → Int → Nat → Int
  | mjp, _, 0 => mjp
  | mjp, pos, fuel + 1 =>
    if minimum ≤ pos then
      let e := infos.getD pos.toNat defaultOpcodeInfo
      extend_scan infos minimum (if mjp < e.jump_from then e.jump_from else mjp)
        e.previous_label fuel
    else mjp

/-- The outer `do { ... } while (max_jmp_pos >= maximum)` loop of
`extend_variable_lifetime`; returns the final `maximum`
(the new `lifetime_end`).  Each iteration scans from the current
`max_jmp_pos` down to `minimum`, then raises `minimum` to the old
candidate.  `fuel` bounds the iterations; it suffices in the analysed
runs (proved below). -/
def extend_closure (infos : List OpcodeInfo) (minimum mjp : Int) : Nat → Int
  | 0 => mjp + 1
  | fuel + 1 =>
    let maximum := mjp + 1
    let m := extend_scan infos minimum mjp mjp (mjp.toNat + 2)
    if maximum ≤ m then extend_closure infos maximum m fuel else maximum

/-- `extend_variable_lifetime`: the lifetime-extension step, exactly as
the C function (early return when the lifetime already covers `index`
or the variable is ETERNAL/UNINITIALIZED; first visit sets `[index,
index+1)` on a pure assignment and ETERNAL+UNINITIALIZED on a read;
otherwise update UNUSED and run the backward-jump closure). -/
def extend_variable_lifetime (infos : List OpcodeInfo) (var : VariableInfo)
    (index : Int) (pure_assignment : Bool) : VariableInfo :=
  if index ≤ var.lifetime_end || var.flags.eternal || var.flags.uninitialized then var
  else if var.lifetime_start == -1 then
    if pure_assignment then
      { var with lifetime_start := index, lifetime_end := index + 1,
                 flags := { var.flags with unused := true } }
    else
      { var with flags := { var.flags with eternal := true, uninitialized := true } }
  else
    let flags := { var.flags with unused := pure_assignment }
    let minimum :=
      if var.lifetime_end < var.lifetime_start then var.lifetime_start else var.lifetime_end
    { var with flags := flags,
               lifetime_end := extend_closure infos minimum index (infos.length + 2) }

/-! ## The three analysis passes -/

/-- Pass 1 (right-to-left jump discovery): `analyse_pass1 ops infos k`
processes indices `k-1, k-2, ..., 0` in that order.  A jump at `i`
records `jump_from := i` at its target slot only when that slot's
current value is negative — the C code relies on whatever the slot
already holds. -/
def analyse_pass1 (ops : List Opcode) : List OpcodeInfo → Nat → List OpcodeInfo
  | infos, 0 => infos
  | infos, i + 1 =>
    let op := ops.getD i defaultOpcode
    let infos1 :=
      if opcode_is_jump op then
        let label := op.operand_target.ref_id
        if 0 ≤ (infos.getD label defaultOpcodeInfo).jump_from then infos
        else infos.set label { infos.getD label defaultOpcodeInfo with jump_from := i }
      else infos
    analyse_pass1 ops infos1 i

/-- Pass 2 (left-to-right previous-label chain): `analyse_pass2_go prev
infos i k` processes indices `i, i+1, ..., i+k-1`, writing the running
`previous_label` and advancing it past every jump target. -/
def analyse_pass2_go : Int → List OpcodeInfo → Nat → Nat → List OpcodeInfo
  | _, infos, _, 0 => infos
  | prev, infos, i, k + 1 =>
    let e := infos.getD i defaultOpcodeInfo
    analyse_pass2_go (if 0 ≤ e.jump_from then (i : Int) else prev)
      (infos.set i { e with previous_label := prev }) (i + 1) k

/-- Pass 3, one instruction: extend the target's lifetime when the
opcode assigns or modifies it, then handle each primary operand —
mark ETERNAL through `operand_is_variable_address_load`, else extend
on a read.  (Writes through an out-of-range `ref_id` are out-of-bounds
in the C code and no-ops here.) -/
def analyse_pass3_step (infos : List OpcodeInfo) (ops : List Opcode)
    (vars : List VariableInfo) (i : Nat) : List VariableInfo :=
  let op := ops.getD i defaultOpcode
  let pure_assign := opcode_is_pure_assignment op
  let vars1 :=
    if operand_is_variable op.operand_target &&
        (pure_assign || opcode_modifies_target_operand op) then
      vars.set op.operand_target.ref_id
        (extend_variable_lifetime infos
          (vars.getD op.operand_target.ref_id defaultVariableInfo) (i : Int) pure_assign)
    else vars
  let vars2 :=
    if operand_is_variable_address_load op.operand_primary_1 then
      let v := op.operand_primary_1.ref_id
      let old := vars1.getD v defaultVariableInfo
      vars1.set v { old with flags := { old.flags with eternal := true } }
    else if operand_is_variable op.operand_primary_1 && opcode_read_operand_primary_1 op then
      vars1.set op.operand_primary_1.ref_id
        (extend_variable_lifetime infos
          (vars1.getD op.operand_primary_1.ref_id defaultVariableInfo) (i : Int) false)
    else vars1
  if operand_is_variable_address_load op.operand_primary_2 then
    let v := op.operand_primary_2.ref_id
    let old := vars2.getD v defaultVariableInfo
    vars2.set v { old with flags := { old.flags with eternal := true } }
  else if operand_is_variable op.operand_primary_2 && opcode_read_operand_primary_2 op then
    vars2.set op.operand_primary_2.ref_id
      (extend_variable_lifetime infos
        (vars2.getD op.operand_primary_2.ref_id defaultVariableInfo) (i : Int) false)
  else vars2

/-- Pass 3 (left-to-right lifetime computation): process indices
`i, i+1, ..., i+k-1`. -/
def analyse_pass3_go (infos : List OpcodeInfo) (ops : List Opcode) :
    List VariableInfo → Nat → Nat → List VariableInfo
  | vars, _, 0 => vars
  | vars, i, k + 1 => analyse_pass3_go infos ops (analyse_pass3_step infos ops vars i) (i + 1) k

/-- `analyse_function`.  `junk` holds the initial contents of the
`malloc`'d per-instruction info array: the C code never initializes it
and pass 1 reads `jump_from` before writing it (the `previous_label`
residues are also taken from `junk`; they are overwritten by pass 2
before their first read whenever `junk` has one entry per opcode). -/
def analyse_function (fn : Function) (junk : List Int) : FunctionAnalysis :=
  let n := fn.opcodes.length
  let infos0 : List OpcodeInfo := junk.map fun j => { previous_label := j, jump_from := j }
  let vars0 : List VariableInfo := List.replicate fn.variables_size defaultVariableInfo
  let infos1 := analyse_pass1 fn.opcodes infos0 n
  let infos2 := analyse_pass2_go (-1) infos1 0 infos1.length
  { infos := infos2, variable_infos := analyse_pass3_go infos2 fn.opcodes vars0 0 n }

/-! ## Derived predicates used in statements -/

/-- The opcode at index `i`. -/
def opcodeAt (fn : Function) (i : Nat) : Opcode := fn.opcodes.getD i defaultOpcode

/-- Whether the opcode at `i` is a jump whose target operand's
`ref_id` is `t`. -/
def opcode_jumps_to (fn : Function) (t i : Nat) : Bool :=
  opcode_is_jump (opcodeAt fn i) && (opcodeAt fn i).operand_target.ref_id == t

/-- Well-formedness of jump targets (spec §4.2 failure semantics: jump
targets are instruction indices in range; out-of-range ones are
undefined behaviour in the C code). -/
def JumpTargetsWF (fn : Function) : Prop :=
  ∀ i, i < fn.opcodes.length → opcode_is_jump (opcodeAt fn i) = true →
    (opcodeAt fn i).operand_target.ref_id < fn.opcodes.length

/-- Well-formedness of variable references in target position (spec
§4.2: operand ref-ids in range; out-of-range ones are undefined
behaviour in the C code, which indexes the variable array unchecked). -/
def VarRefsWF (fn : Function) : Prop :=
  ∀ i, i < fn.opcodes.length →
    operand_is_variable (opcodeAt fn i).operand_target = true →
    (opcodeAt fn i).operand_target.ref_id < fn.variables_size

/-- Whether opcode `i` makes the lifetime pass visit variable `v`: the
target operand references `v` and the opcode is a pure assignment or
modifies its target.  (Primary-operand reads never reach the extension
call in the compiled code, because `operand_is_variable_address_load`
accepts every variable operand and diverts them to the ETERNAL mark.) -/
def TriggersVisit (fn : Function) (i v : Nat) : Prop :=
  operand_is_variable (opcodeAt fn i).operand_target = true ∧
  (opcodeAt fn i).operand_target.ref_id = v ∧
  (opcode_is_pure_assignment (opcodeAt fn i) = true ∨
   opcode_modifies_target_operand (opcodeAt fn i) = true)

instance (fn : Function) (i v : Nat) : Decidable (TriggersVisit fn i v) := by
  unfold TriggersVisit; infer_instance

instance (fn : Function) : Decidable (VarRefsWF fn) := by
  unfold VarRefsWF; infer_instance

instance (fn : Function) : Decidable (JumpTargetsWF fn) := by
  unfold JumpTargetsWF; infer_instance

/-! ## Concrete inputs used by witnesses and counterexamples -/

/-- An immediate operand (the payload union viewed through `ref_id`). -/
def oImm (v : Nat) : Operand := ⟨v, OPERAND_INFO_TYPE_IMMEDIATE, 0⟩

/-- A variable operand with no flags. -/
def oVar (v : Nat) : Operand := ⟨v, OPERAND_INFO_TYPE_VARIABLE, 0⟩

/-- An argument operand. -/
def oArg (v : Nat) : Operand := ⟨v, OPERAND_INFO_TYPE_ARGUMENT, 0⟩

/-- Scenario 5 of the specification: COPY v0,imm; COPY v1,imm;
ADD v0,v0,v1; GOTO_EQ(v0,imm)→5; GOTO→2; RETURN v0. -/
def fnScenario5 : Function :=
  { opcodes :=
      [ ⟨OPCODE_COPY, oVar 0, oImm 0, oImm 0⟩,
        ⟨OPCODE_COPY, oVar 1, oImm 1, oImm 0⟩,
        ⟨OPCODE_ADD, oVar 0, oVar 0, oVar 1⟩,
        ⟨OPCODE_GOTO_BASE + COMPARISON_EQUAL, oImm 5, oVar 0, oImm 10⟩,
        ⟨OPCODE_GOTO_BASE, oImm 2, oImm 0, oImm 0⟩,
        ⟨OPCODE_RETURN, oImm 0, oVar 0, oImm 0⟩ ],
    variables_size := 2 }

/-- A function whose live range `[0, 3)` of v0 contains a forward jump
(at index 1) out to index 6: COPY v0; GOTO→6; ADD v0,arg,arg; 4×NOP. -/
def fnJumpOut : Function :=
  { opcodes :=
      [ ⟨OPCODE_COPY, oVar 0, oImm 0, oImm 0⟩,
        ⟨OPCODE_GOTO_BASE, oImm 6, oImm 0, oImm 0⟩,
        ⟨OPCODE_ADD, oVar 0, oArg 0, oArg 1⟩,
        ⟨OPCODE_NOP, oImm 0, oImm 0, oImm 0⟩,
        ⟨OPCODE_NOP, oImm 0, oImm 0, oImm 0⟩,
        ⟨OPCODE_NOP, oImm 0, oImm 0, oImm 0⟩,
        ⟨OPCODE_NOP, oImm 0, oImm 0, oImm 0⟩ ],
    variables_size := 1 }

/-- A jump-free three-opcode function (COPY v0; NOP; ADD v0,arg,arg)
whose lifetime pass reads the info slot at index 2. -/
def fnThreeOps : Function :=
  { opcodes :=
      [ ⟨OPCODE_COPY, oVar 0, oImm 0, oImm 0⟩,
        ⟨OPCODE_NOP, oImm 0, oImm 0, oImm 0⟩,
        ⟨OPCODE_ADD, oVar 0, oArg 0, oArg 1⟩ ],
    variables_size := 1 }

/-- A single NOP; nothing jumps anywhere. -/
def fnSingleNop : Function :=
  { opcodes := [⟨OPCODE_NOP, oImm 0, oImm 0, oImm 0⟩], variables_size := 0 }

/-- A two-opcode function whose first opcode jumps to index 0. -/
def fnBackJump : Function :=
  { opcodes :=
      [ ⟨OPCODE_GOTO_BASE, oImm 0, oImm 0, oImm 0⟩,
        ⟨OPCODE_NOP, oImm 0, oImm 0, oImm 0⟩ ],
    variables_size := 0 }

/-- Encoder run with one valid jump (to label 0) followed by a jump to
the nonexistent label 5. -/
def encTwoJumps : X86Encoder := encoder_run [.add_label, .jmp false 0, .jmp false 5]

/-- Encoder run with a backward jump and a forward conditional jump,
both to existing labels. -/
def encRoundtrip : X86Encoder :=
  encoder_run [.add_label, .nop, .nop, .jmp false 0, .add_label, .jmp_cond 4 1]

/-! ## Invariants used by the proofs -/

/-- Relocation layout invariant of every reachable encoder state: all
relocations are relative, each patch window lies inside the buffer, and
the windows appear in strictly increasing, pairwise disjoint order. -/
def EncoderInv (st : X86Encoder) : Prop :=
  (∀ r ∈ st.relocations, r.relative = true ∧ r.offset + 4 ≤ st.buffer.length) ∧
  st.relocations.Pairwise fun a b => a.offset + 4 ≤ b.offset

/-- The previous-label chain strictly descends (pass 2 writes an index
strictly below the slot, and out-of-range slots read as -1). -/
def ChainDesc (infos : List OpcodeInfo) : Prop :=
  ∀ p : Nat, (infos.getD p defaultOpcodeInfo).previous_label < (p : Int)

/-- The previous-label chain is complete: every jump target strictly
below `p` is at or below `previous_label` of `p`, so walking the chain
from `p` visits every jump target below it. -/
def ChainComplete (infos : List OpcodeInfo) : Prop :=
  ∀ p : Nat, p < infos.length → ∀ t : Nat, (t : Int) < (p : Int) →
    0 ≤ (infos.getD t defaultOpcodeInfo).jump_from →
    (t : Int) ≤ (infos.getD p defaultOpcodeInfo).previous_label

/-- Every `jump_from` entry is below the instruction count. -/
def JumpFromBound (infos : List OpcodeInfo) : Prop :=
  ∀ p : Nat, (infos.getD p defaultOpcodeInfo).jump_from < (infos.length : Int)

/-- Per-variable invariant of the lifetime pass after the first `m`
instructions: UNINITIALIZED implies ETERNAL; an unvisited variable has
both lifetime fields -1; a visited one has a well-formed range whose
interior admits no jump source at or beyond its end; and the lifetime
pass has visited the variable exactly when some processed opcode
triggers a visit. -/
def VarINV (fn : Function) (infos : List OpcodeInfo) (m v : Nat) (V : VariableInfo) : Prop :=
  (V.flags.uninitialized = true → V.flags.eternal = true) ∧
  (V.lifetime_start = -1 → V.lifetime_end = -1) ∧
  (V.lifetime_start ≠ -1 →
    0 ≤ V.lifetime_start ∧ V.lifetime_start < V.lifetime_end ∧
    V.lifetime_end ≤ (fn.opcodes.length : Int) ∧
    ∀ t : Nat, V.lifetime_start < (t : Int) → (t : Int) < V.lifetime_end →
      (infos.getD t defaultOpcodeInfo).jump_from < V.lifetime_end) ∧
  (V.lifetime_start ≠ -1 → ∃ i, i < m ∧ TriggersVisit fn i v) ∧
  (V.flags.eternal = false → V.lifetime_start = -1 → ∀ i, i < m → ¬TriggersVisit fn i v)

/-- The ETERNAL marking `flags |= VARIABLE_INFO_ETERNAL` applied to
slot `v` (used to state pass 3 compactly; writes through an
out-of-range id are no-ops, as in `analyse_pass3_step`). -/
def mark_eternal (vars : List VariableInfo) (v : Nat) : List VariableInfo :=
  vars.set v
    { vars.getD v defaultVariableInfo with
      flags := { (vars.getD v defaultVariableInfo).flags with eternal := true } }

/-! ## Small list helpers -/

theorem getD_set_self {α : Type} (l : List α) (i : Nat) (a d : α) (h : i < l.length) :
    (l.set i a).getD i d = a := by
  simp [List.getD_eq_getElem?_getD, List.getElem?_set_self h]

theorem getD_set_ne {α : Type} (l : List α) (i j : Nat) (a d : α) (h : i ≠ j) :
    (l.set i a).getD j d = l.getD j d := by
  simp [List.getD_eq_getElem?_getD, List.getElem?_set_ne h]

theorem getD_of_length_le {α : Type} (l : List α) (n : Nat) (d : α) (h : l.length ≤ n) :
    l.getD n d = d := by
  simp [List.getD_eq_getElem?_getD, List.getElem?_eq_none h]

/-! ## C5: register-register ModR/M emitters -/

theorem rex_modrm_bytes : ∀ rm < 16, ∀ reg < 16,
    x86_rex_field (rm &&& 0x08 != 0) false (reg &&& 0x08 != 0) true =
      0x48 + 4 * (reg / 8) + rm / 8 ∧
    x86_rex_field (rm &&& 0x08 != 0) false (reg &&& 0x08 != 0) false =
      0x40 + 4 * (reg / 8) + rm / 8 ∧
    x86_modrm_byte (rm &&& 0x07) (reg &&& 0x07) 0x03 = 0xC0 + 8 * (reg % 8) + rm % 8 := by
  decide

/-- C5: every register-register ModR/M emitter appends exactly an
optional 0x66 prefix (16-bit only), a REX byte 0100WRXB with W set
exactly for the 64-bit width, X clear, B the high bit of the rm
register's 4-bit index and R the high bit of the reg register's 4-bit
index (emitted even when W = R = X = B = 0), the opcode byte
(decremented by one in the 8-bit width), and a ModR/M byte with
mod = 0b11 and the low three bits of each register index. -/
theorem C5_modrm_reg_reg_encoding (enc : X86Encoder) (opcode rm reg : Nat)
    (hop1 : 1 ≤ opcode) (hop2 : opcode < 256) (hrm : rm < 16) (hreg : reg < 16) :
    (x86_encoder_write_modrm enc opcode rm reg).buffer =
      enc.buffer ++ [0x48 + 4 * (reg / 8) + rm / 8, opcode, 0xC0 + 8 * (reg % 8) + rm % 8] ∧
    (x86_encoder_write_modrm_32 enc opcode rm reg).buffer =
      enc.buffer ++ [0x40 + 4 * (reg / 8) + rm / 8, opcode, 0xC0 + 8 * (reg % 8) + rm % 8] ∧
    (x86_encoder_write_modrm_16 enc opcode rm reg).buffer =
      enc.buffer ++
        [0x66, 0x40 + 4 * (reg / 8) + rm / 8, opcode, 0xC0 + 8 * (reg % 8) + rm % 8] ∧
    (x86_encoder_write_modrm_8 enc opcode rm reg).buffer =
      enc.buffer ++
        [0x40 + 4 * (reg / 8) + rm / 8, opcode - 1, 0xC0 + 8 * (reg % 8) + rm % 8] := by
  obtain ⟨h1, h2, h3⟩ := rex_modrm_bytes rm hrm reg hreg
  have hmod : opcode % 256 = opcode := Nat.mod_eq_of_lt hop2
  have hdec : (opcode + 255) % 256 % 256 = opcode - 1 := by omega
  refine ⟨?_, ?_, ?_, ?_⟩ <;>
    simp [x86_encoder_write_modrm, x86_encoder_write_modrm_32, x86_encoder_write_modrm_16,
      x86_encoder_write_modrm_8, x86_encoder_write_modrm_rex, x86_prepare_modrm_rex,
      h1, h2, h3, hmod, hdec]

theorem C5_modrm_reg_reg_encoding_witness :
    (x86_encoder_write_modrm x86_encoder_init 0x01 9 2).buffer =
      x86_encoder_init.buffer ++
        [0x48 + 4 * (2 / 8) + 9 / 8, 0x01, 0xC0 + 8 * (2 % 8) + 9 % 8] :=
  (C5_modrm_reg_reg_encoding x86_encoder_init 0x01 9 2 (by decide) (by decide) (by decide)
    (by decide)).1

/-! ## C6: jump and call emitters -/

/-- C6: `write_jmp` appends opcode E8 (call) / E9 (jmp) and four zero
placeholder bytes and records one relative relocation at the
placeholder's buffer position; `write_jmp_cond` does the same with the
two opcode bytes 0F, 80+cond. -/
theorem C6_jmp_emitters (enc : X86Encoder) (call : Bool) (cond label : Nat)
    (hcond : cond < 16) :
    (x86_encoder_write_jmp enc call label).buffer =
      enc.buffer ++ [if call then 0xE8 else 0xE9, 0, 0, 0, 0] ∧
    (x86_encoder_write_jmp enc call label).relocations =
      enc.relocations ++ [⟨enc.buffer.length + 1, label, true⟩] ∧
    (x86_encoder_write_jmp enc call label).labels = enc.labels ∧
    (x86_encoder_write_jmp_cond enc cond label).buffer =
      enc.buffer ++ [0x0F, 0x80 + cond, 0, 0, 0, 0] ∧
    (x86_encoder_write_jmp_cond enc cond label).relocations =
      enc.relocations ++ [⟨enc.buffer.length + 2, label, true⟩] ∧
    (x86_encoder_write_jmp_cond enc cond label).labels = enc.labels := by
  have hb : (0x80 + cond) % 256 = 0x80 + cond := Nat.mod_eq_of_lt (by omega)
  refine ⟨?_, ?_, ?_, ?_, ?_, ?_⟩ <;>
    simp [x86_encoder_write_jmp, x86_encoder_write_jmp_cond, x86_encoder_add_relocation, hb]

theorem C6_jmp_emitters_witness :
    (x86_encoder_write_jmp_cond x86_encoder_init 4 3).buffer =
      x86_encoder_init.buffer ++ [0x0F, 0x80 + 4, 0, 0, 0, 0] :=
  (C6_jmp_emitters x86_encoder_init true 4 3 (by decide)).2.2.2.1

/-! ## C7: label table invariants -/

theorem encoder_step_buffer_mono (enc : X86Encoder) (op : EncOp) :
    enc.buffer.length ≤ (encoder_step enc op).buffer.length := by
  cases op <;>
    simp [encoder_step, x86_encoder_add_label, x86_encoder_move_label,
      x86_encoder_write_jmp, x86_encoder_write_jmp_cond, x86_encoder_write_jmp_reg,
      x86_encoder_write_cmp_reg, x86_encoder_write_modrm, x86_encoder_write_modrm_32,
      x86_encoder_write_modrm_16, x86_encoder_write_modrm_8, x86_encoder_write_modrm_rex,
      x86_encoder_write_mov_imm_64, x86_encoder_write_mov_imm_32,
      x86_encoder_write_mov_imm_16, x86_encoder_write_mov_imm_8, x86_encoder_write_push,
      x86_encoder_write_pop, x86_encoder_write_ret, x86_encoder_write_nop,
      x86_encoder_add_relocation]

theorem encoder_step_labels_mem (enc : X86Encoder) (op : EncOp) :
    ∀ off ∈ (encoder_step enc op).labels, off ∈ enc.labels ∨ off = enc.buffer.length := by
  cases op <;>
    simp [encoder_step, x86_encoder_add_label, x86_encoder_move_label,
      x86_encoder_write_jmp, x86_encoder_write_jmp_cond, x86_encoder_write_jmp_reg,
      x86_encoder_write_cmp_reg, x86_encoder_write_modrm, x86_encoder_write_modrm_32,
      x86_encoder_write_modrm_16, x86_encoder_write_modrm_8, x86_encoder_write_modrm_rex,
      x86_encoder_write_mov_imm_64, x86_encoder_write_mov_imm_32,
      x86_encoder_write_mov_imm_16, x86_encoder_write_mov_imm_8, x86_encoder_write_push,
      x86_encoder_write_pop, x86_encoder_write_ret, x86_encoder_write_nop,
      x86_encoder_add_relocation] <;>
    intro off hoff <;> first
      | exact Or.inl hoff
      | exact (List.mem_or_eq_of_mem_set hoff).imp_right id

theorem encoder_step_labels_length (enc : X86Encoder) (op : EncOp) :
    (encoder_step enc op).labels.length =
      enc.labels.length + (if encop_is_add_label op then 1 else 0) := by
  cases op <;>
    simp [encoder_step, encop_is_add_label, x86_encoder_add_label, x86_encoder_move_label,
      x86_encoder_write_jmp, x86_encoder_write_jmp_cond, x86_encoder_write_jmp_reg,
      x86_encoder_write_cmp_reg, x86_encoder_write_modrm, x86_encoder_write_modrm_32,
      x86_encoder_write_modrm_16, x86_encoder_write_modrm_8, x86_encoder_write_modrm_rex,
      x86_encoder_write_mov_imm_64, x86_encoder_write_mov_imm_32,
      x86_encoder_write_mov_imm_16, x86_encoder_write_mov_imm_8, x86_encoder_write_push,
      x86_encoder_write_pop, x86_encoder_write_ret, x86_encoder_write_nop,
      x86_encoder_add_relocation]

theorem encoder_foldl_labels_le (ops : List EncOp) :
    ∀ enc : X86Encoder, (∀ off ∈ enc.labels, off ≤ enc.buffer.length) →
      ∀ off ∈ (ops.foldl encoder_step enc).labels,
        off ≤ (ops.foldl encoder_step enc).buffer.length := by
  induction ops with
  | nil => intro enc h; simpa using h
  | cons op ops ih =>
    intro enc h
    simp only [List.foldl_cons]
    refine ih (encoder_step enc op) ?_
    intro off hoff
    rcases encoder_step_labels_mem enc op off hoff with h1 | h1
    · exact le_trans (h off h1) (encoder_step_buffer_mono enc op)
    · exact h1 ▸ encoder_step_buffer_mono enc op

theorem encoder_foldl_labels_length (ops : List EncOp) :
    ∀ enc : X86Encoder, (ops.foldl encoder_step enc).labels.length =
      enc.labels.length + ops.countP encop_is_add_label := by
  induction ops with
  | nil => intro enc; simp
  | cons op ops ih =>
    intro enc
    simp only [List.foldl_cons, List.countP_cons, ih (encoder_step enc op),
      encoder_step_labels_length]
    by_cases h : encop_is_add_label op = true
    · simp [h]
      omega
    · simp [h]

/-- C7: label ids are dense and monotonically increasing from 0 (each
`add_label` returns the current label count and appends one entry, so
after any run the table length is the number of `add_label` calls and
the k-th call returned k); a created or moved label's offset is the
buffer size at the time of the call; the buffer size never decreases
across any call; and every label offset is at most the buffer size. -/
theorem C7_label_invariants :
    (∀ enc : X86Encoder, (x86_encoder_add_label enc).1 = enc.labels.length ∧
      (x86_encoder_add_label enc).2.labels = enc.labels ++ [enc.buffer.length]) ∧
    (∀ ops : List EncOp,
      (encoder_run ops).labels.length = ops.countP encop_is_add_label) ∧
    (∀ enc : X86Encoder, ∀ label : Nat, label < enc.labels.length →
      (x86_encoder_move_label enc label).labels.getD label 0 = enc.buffer.length) ∧
    (∀ enc : X86Encoder, ∀ op : EncOp,
      enc.buffer.length ≤ (encoder_step enc op).buffer.length) ∧
    (∀ ops : List EncOp, ∀ off ∈ (encoder_run ops).labels,
      off ≤ (encoder_run ops).buffer.length) := by
  refine ⟨fun enc => ⟨rfl, rfl⟩, fun ops => ?_, fun enc label h => ?_,
    encoder_step_buffer_mono, fun ops => ?_⟩
  · simpa [encoder_run, x86_encoder_init] using encoder_foldl_labels_length ops x86_encoder_init
  · exact getD_set_self enc.labels label enc.buffer.length 0 h
  · exact encoder_foldl_labels_le ops x86_encoder_init (by simp [x86_encoder_init])

/-! ## C2: failure semantics of apply_relocations -/

theorem apply_go_spec (labels : List Nat) (base : Nat) :
    ∀ rs : List X86Relocation, ∀ buf : List Nat,
      ((x86_encoder_apply_go labels base buf rs).1 = 0 ↔
        ∀ r ∈ rs, r.label < labels.length) ∧
      (x86_encoder_apply_go labels base buf rs).2 =
        (rs.takeWhile fun r => decide (r.label < labels.length)).foldl
          (x86_relocation_patch labels base) buf := by
  intro rs
  induction rs with
  | nil => intro buf; simp [x86_encoder_apply_go]
  | cons r rs ih =>
    intro buf
    by_cases h : labels.length ≤ r.label
    · constructor
      · rw [show x86_encoder_apply_go labels base buf (r :: rs) = (1, buf) by
            simp [x86_encoder_apply_go, h]]
        exact iff_of_false (by simp)
          (fun hall => absurd (hall r (List.mem_cons_self r rs)) (by omega))
      · simp [x86_encoder_apply_go, h, List.takeWhile_cons, show ¬r.label < labels.length by omega]
    · have hlt : r.label < labels.length := by omega
      constructor
      · rw [show x86_encoder_apply_go labels base buf (r :: rs) =
            x86_encoder_apply_go labels base (x86_relocation_patch labels base buf r) rs by
            simp [x86_encoder_apply_go, h]]
        rw [(ih (x86_relocation_patch labels base buf r)).1]
        constructor
        · intro hall r' hr'
          rcases List.mem_cons.mp hr' with h1 | h1
          · exact h1 ▸ hlt
          · exact hall r' h1
        · intro hall r' hr'; exact hall r' (List.mem_cons_of_mem r hr')
      · rw [show x86_encoder_apply_go labels base buf (r :: rs) =
            x86_encoder_apply_go labels base (x86_relocation_patch labels base buf r) rs by
            simp [x86_encoder_apply_go, h]]
        rw [(ih (x86_relocation_patch labels base buf r)).2]
        simp [List.takeWhile_cons, hlt]

/-- C2 counterexample: an encoder holding one valid relocation (to
label 0) followed by one naming the nonexistent label 5.  Applying
relocations returns the failure code 1, yet the target bytes are NOT
left unchanged: the first (valid) relocation has already been patched
when the bad one is reached. -/
theorem C2_counterexample_partial_patch :
    (x86_encoder_apply_relocations encTwoJumps 0).1 = 1 ∧
    (x86_encoder_apply_relocations encTwoJumps 0).2 ≠ encTwoJumps.buffer := by decide

/-- C2 (amended): `apply_relocations` fails (returns nonzero) exactly
when some recorded relocation names a label id at or beyond the number
of labels, and on failure the relocations recorded before the first
offending one have already been patched into the target — the
offending one and everything after it are left unapplied (patching is
the left fold over the longest prefix of in-range relocations). -/
theorem C2_amended_first_bad_label (enc : X86Encoder) (tbuf : List Nat) (base : Nat) :
    ((x86_encoder_apply_relocations_in_memory enc tbuf base).1 = 0 ↔
      ∀ r ∈ enc.relocations, r.label < enc.labels.length) ∧
    (x86_encoder_apply_relocations_in_memory enc tbuf base).2 =
      (enc.relocations.takeWhile fun r => decide (r.label < enc.labels.length)).foldl
        (x86_relocation_patch enc.labels base) tbuf :=
  apply_go_spec enc.labels base enc.relocations tbuf

/-! ## C3: relocation roundtrip -/

theorem leBytes_length (k : Nat) : ∀ v : Nat, (leBytes k v).length = k := by
  induction k with
  | zero => intro v; simp [leBytes]
  | succ k ih => intro v; simp [leBytes, ih]

theorem writeLE_length (buf : List Nat) (off k v : Nat) (h : off + k ≤ buf.length) :
    (writeLE buf off k v).length = buf.length := by
  simp [writeLE, leBytes_length, List.length_take, List.length_drop]
  omega

theorem writeLE_getD_lt (buf : List Nat) (off k v j : Nat) (h : j < off)
    (hoff : off ≤ buf.length) :
    (writeLE buf off k v).getD j 0 = buf.getD j 0 := by
  unfold writeLE
  rw [List.append_assoc, List.getD_append _ _ _ _ (by simp [List.length_take]; omega)]
  simp [List.getD_eq_getElem?_getD, List.getElem?_take, h]

theorem writeLE_getD_window (buf : List Nat) (off k v j : Nat) (hj : j < k)
    (hoff : off ≤ buf.length) :
    (writeLE buf off k v).getD (off + j) 0 = (leBytes k v).getD j 0 := by
  unfold writeLE
  rw [List.append_assoc,
    List.getD_append_right _ _ _ _ (by simp only [List.length_take]; omega)]
  rw [show off + j - (buf.take off).length = j by simp only [List.length_take]; omega]
  rw [List.getD_append _ _ _ _ (by simp only [leBytes_length]; omega)]

theorem readLE32_writeLE (buf : List Nat) (off v : Nat) (h : off + 4 ≤ buf.length) :
    readLE32 (writeLE buf off 4 v) off = v % 2 ^ 32 := by
  have h0 := writeLE_getD_window buf off 4 v 0 (by omega) (by omega)
  have h1 := writeLE_getD_window buf off 4 v 1 (by omega) (by omega)
  have h2 := writeLE_getD_window buf off 4 v 2 (by omega) (by omega)
  have h3 := writeLE_getD_window buf off 4 v 3 (by omega) (by omega)
  rw [Nat.add_zero] at h0
  simp only [leBytes] at h0 h1 h2 h3
  simp only [readLE32, h0, h1, h2, h3]
  simp [List.getD]
  omega

theorem readLE32_other (buf : List Nat) (off off2 k v : Nat) (h : off + 4 ≤ off2)
    (hoff : off2 ≤ buf.length) :
    readLE32 (writeLE buf off2 k v) off = readLE32 buf off := by
  simp only [readLE32]
  rw [writeLE_getD_lt buf off2 k v off (by omega) hoff,
    writeLE_getD_lt buf off2 k v (off + 1) (by omega) hoff,
    writeLE_getD_lt buf off2 k v (off + 2) (by omega) hoff,
    writeLE_getD_lt buf off2 k v (off + 3) (by omega) hoff]

theorem patch_length (labels : List Nat) (base : Nat) (buf : List Nat) (r : X86Relocation)
    (hrel : r.relative = true) (h : r.offset + 4 ≤ buf.length) :
    (x86_relocation_patch labels base buf r).length = buf.length := by
  simp only [x86_relocation_patch, hrel, if_pos]
  exact writeLE_length buf r.offset 4 _ h

theorem patch_readLE32_lt (labels : List Nat) (base : Nat) (buf : List Nat)
    (r : X86Relocation) (off : Nat) (hrel : r.relative = true) (h : off + 4 ≤ r.offset)
    (hoff : r.offset ≤ buf.length) :
    readLE32 (x86_relocation_patch labels base buf r) off = readLE32 buf off := by
  simp only [x86_relocation_patch, hrel, if_pos]
  exact readLE32_other buf off r.offset 4 _ h hoff

theorem foldl_patch_preserve (labels : List Nat) (base : Nat) :
    ∀ rs : List X86Relocation, ∀ buf : List Nat, ∀ off : Nat,
      (∀ r ∈ rs, r.relative = true ∧ off + 4 ≤ r.offset ∧ r.offset + 4 ≤ buf.length) →
      (rs.foldl (x86_relocation_patch labels base) buf).length = buf.length ∧
      readLE32 (rs.foldl (x86_relocation_patch labels base) buf) off = readLE32 buf off := by
  intro rs
  induction rs with
  | nil => intro buf off _; simp
  | cons r rs ih =>
    intro buf off h
    obtain ⟨hrel, hgap, hin⟩ := h r (List.mem_cons_self r rs)
    have hlen : (x86_relocation_patch labels base buf r).length = buf.length :=
      patch_length labels base buf r hrel hin
    have hnext : ∀ r' ∈ rs, r'.relative = true ∧ off + 4 ≤ r'.offset ∧
        r'.offset + 4 ≤ (x86_relocation_patch labels base buf r).length := by
      intro r' hr'
      obtain ⟨a, b, c⟩ := h r' (List.mem_cons_of_mem r hr')
      exact ⟨a, b, by omega⟩
    obtain ⟨ihlen, ihread⟩ := ih (x86_relocation_patch labels base buf r) off hnext
    refine ⟨by simp only [List.foldl_cons]; omega, ?_⟩
    simp only [List.foldl_cons]
    rw [ihread, patch_readLE32_lt labels base buf r off hrel hgap (by omega)]

theorem apply_success_window (labels : List Nat) (base : Nat) :
    ∀ rs : List X86Relocation, ∀ buf : List Nat,
      (∀ r ∈ rs, r.relative = true ∧ r.offset + 4 ≤ buf.length ∧ r.label < labels.length) →
      rs.Pairwise (fun a b => a.offset + 4 ≤ b.offset) →
      ∀ r ∈ rs, readLE32 (x86_encoder_apply_go labels base buf rs).2 r.offset =
        ((((labels.getD r.label 0 : Int)) - ((r.offset : Int) + 4)) % 2 ^ 32).toNat := by
  intro rs
  induction rs with
  | nil => intro buf _ _ r hr; simp at hr
  | cons r0 rs ih =>
    intro buf hbound hpair r hr
    obtain ⟨hrel0, hin0, hlab0⟩ := hbound r0 (List.mem_cons_self r0 rs)
    have hgo : x86_encoder_apply_go labels base buf (r0 :: rs) =
        x86_encoder_apply_go labels base (x86_relocation_patch labels base buf r0) rs := by
      simp [x86_encoder_apply_go, show ¬labels.length ≤ r0.label by omega]
    have hlen0 : (x86_relocation_patch labels base buf r0).length = buf.length :=
      patch_length labels base buf r0 hrel0 hin0
    have hpair0 : ∀ b ∈ rs, r0.offset + 4 ≤ b.offset := fun b hb =>
      (List.pairwise_cons.mp hpair).1 b hb
    rcases List.mem_cons.mp hr with h1 | h1
    · subst h1
      rw [hgo, (apply_go_spec labels base rs (x86_relocation_patch labels base buf r)).2,
        List.takeWhile_eq_self_iff.mpr
          (fun r' hr' => by simp [(hbound r' (List.mem_cons_of_mem r hr')).2.2])]
      have hpres := (foldl_patch_preserve labels base rs
        (x86_relocation_patch labels base buf r) r.offset
        (fun r' hr' => ⟨(hbound r' (List.mem_cons_of_mem r hr')).1, hpair0 r' hr',
          by rw [hlen0]; exact (hbound r' (List.mem_cons_of_mem r hr')).2.1⟩)).2
      rw [hpres]
      simp only [x86_relocation_patch, hrel0, if_pos]
      rw [readLE32_writeLE buf r.offset _ hin0]
      exact Nat.mod_eq_of_lt (by
        have := Int.emod_lt_of_pos ((labels.getD r.label 0 : Int) - ((r.offset : Int) + 4))
          (show (0 : Int) < 2 ^ 32 by norm_num)
        have := Int.emod_nonneg ((labels.getD r.label 0 : Int) - ((r.offset : Int) + 4))
          (show (2 : Int) ^ 32 ≠ 0 by norm_num)
        omega)
    · rw [hgo]
      refine ih (x86_relocation_patch labels base buf r0) ?_ (List.pairwise_cons.mp hpair).2
        r h1
      intro r' hr'
      obtain ⟨a, b, c⟩ := hbound r' (List.mem_cons_of_mem r0 hr')
      exact ⟨a, by omega, c⟩

theorem EncoderInv_mono (e1 e2 : X86Encoder) (h : EncoderInv e1)
    (hrel : e2.relocations = e1.relocations) (hlen : e1.buffer.length ≤ e2.buffer.length) :
    EncoderInv e2 := by
  obtain ⟨h1, h2⟩ := h
  refine ⟨?_, hrel ▸ h2⟩
  intro r hr
  obtain ⟨a, b⟩ := h1 r (hrel ▸ hr)
  exact ⟨a, by omega⟩

theorem encoder_step_inv (enc : X86Encoder) (op : EncOp) (h : EncoderInv enc) :
    EncoderInv (encoder_step enc op) := by
  have hjmp : ∀ call label, EncoderInv (x86_encoder_write_jmp enc call label) := by
    intro call label
    obtain ⟨h1, h2⟩ := h
    constructor
    · intro r hr
      simp only [x86_encoder_write_jmp, x86_encoder_add_relocation, List.mem_append,
        List.mem_singleton] at hr
      rcases hr with hr | hr
      · obtain ⟨a, b⟩ := h1 r hr
        refine ⟨a, ?_⟩
        simp [x86_encoder_write_jmp, x86_encoder_add_relocation]
        omega
      · subst hr
        refine ⟨rfl, ?_⟩
        simp [x86_encoder_write_jmp, x86_encoder_add_relocation]
    · simp only [x86_encoder_write_jmp, x86_encoder_add_relocation]
      rw [List.pairwise_append]
      refine ⟨h2, List.pairwise_singleton _ _, ?_⟩
      intro a ha b hb
      simp only [List.mem_singleton] at hb
      subst hb
      have := (h1 a ha).2
      simp
      omega
  have hjc : ∀ cond label, EncoderInv (x86_encoder_write_jmp_cond enc cond label) := by
    intro cond label
    obtain ⟨h1, h2⟩ := h
    constructor
    · intro r hr
      simp only [x86_encoder_write_jmp_cond, x86_encoder_add_relocation, List.mem_append,
        List.mem_singleton] at hr
      rcases hr with hr | hr
      · obtain ⟨a, b⟩ := h1 r hr
        refine ⟨a, ?_⟩
        simp [x86_encoder_write_jmp_cond, x86_encoder_add_relocation]
        omega
      · subst hr
        refine ⟨rfl, ?_⟩
        simp [x86_encoder_write_jmp_cond, x86_encoder_add_relocation]
    · simp only [x86_encoder_write_jmp_cond, x86_encoder_add_relocation]
      rw [List.pairwise_append]
      refine ⟨h2, List.pairwise_singleton _ _, ?_⟩
      intro a ha b hb
      simp only [List.mem_singleton] at hb
      subst hb
      have := (h1 a ha).2
      simp
      omega
  cases op with
  | jmp call label => exact hjmp call label
  | jmp_cond cond label => exact hjc cond label
  | _ =>
    first
    | exact EncoderInv_mono enc _ h rfl (encoder_step_buffer_mono enc _)

theorem encoder_run_inv (ops : List EncOp) : EncoderInv (encoder_run ops) := by
  suffices h : ∀ enc : X86Encoder, EncoderInv enc → EncoderInv (ops.foldl encoder_step enc) by
    refine h x86_encoder_init ⟨by simp [x86_encoder_init], by simp [x86_encoder_init]⟩
  induction ops with
  | nil => intro enc h; exact h
  | cons op ops ih =>
    intro enc h
    exact ih (encoder_step enc op) (encoder_step_inv enc op h)

theorem readSigned32_of_emod (buf : List Nat) (off : Nat) (d : Int)
    (h : readLE32 buf off = ((d % 2 ^ 32).toNat)) :
    readSigned32 buf off = narrow32 d := by
  unfold readSigned32 narrow32
  split <;> omega

/-- C3: for every relocation recorded by an emitted jump or call to a
label, after a successful `apply_relocations` at base 0 the 32-bit
signed little-endian integer at the four placeholder bytes equals
`label_offset - (patch_offset + 4)` narrowed to signed 32 bits
(out-of-range displacements are truncated modulo 2^32, never
detected). -/
theorem C3_relocation_roundtrip (ops : List EncOp) (r : X86Relocation)
    (hr : r ∈ (encoder_run ops).relocations)
    (hok : (x86_encoder_apply_relocations (encoder_run ops) 0).1 = 0) :
    readSigned32 (x86_encoder_apply_relocations (encoder_run ops) 0).2 r.offset =
      narrow32 (((encoder_run ops).labels.getD r.label 0 : Int) - ((r.offset : Int) + 4)) := by
  obtain ⟨hbound, hpair⟩ := encoder_run_inv ops
  have hgood : ∀ r' ∈ (encoder_run ops).relocations,
      r'.label < (encoder_run ops).labels.length :=
    (apply_go_spec (encoder_run ops).labels 0 (encoder_run ops).relocations
      (encoder_run ops).buffer).1.mp hok
  have hwin := apply_success_window (encoder_run ops).labels 0 (encoder_run ops).relocations
    (encoder_run ops).buffer
    (fun r' hr' => ⟨(hbound r' hr').1, (hbound r' hr').2, hgood r' hr'⟩) hpair r hr
  exact readSigned32_of_emod _ _ _ hwin

theorem C3_relocation_roundtrip_witness :
    readSigned32
      (x86_encoder_apply_relocations
        (encoder_run [.add_label, .nop, .nop, .jmp false 0, .add_label, .jmp_cond 4 1]) 0).2
      3 =
    narrow32
      (((encoder_run [.add_label, .nop, .nop, .jmp false 0, .add_label,
          .jmp_cond 4 1]).labels.getD 0 0 : Int) - (((3 : Nat) : Int) + 4)) :=
  C3_relocation_roundtrip [.add_label, .nop, .nop, .jmp false 0, .add_label, .jmp_cond 4 1]
    ⟨3, 0, true⟩ (by decide) (by decide)

/-! ## C1: scenario 5 of the specification -/

/-- C1 counterexample: running the analysis on the scenario-5 function
(with the uninitialized `jump_from` residues taken as -1, the benign
case) yields lifetime(v0) = [0, 5), lifetime(v1) = [1, 2), and marks
BOTH variables ETERNAL, so the claimed outcome — lifetime(v0) = [0,6),
lifetime(v1) = [1,5), neither ETERNAL — is false. -/
theorem C1_counterexample_scenario5 :
    ((analyse_function fnScenario5 (List.replicate 6 (-1))).variable_infos.getD 0
        defaultVariableInfo).flags.eternal = true ∧
    ((analyse_function fnScenario5 (List.replicate 6 (-1))).variable_infos.getD 1
        defaultVariableInfo).flags.eternal = true ∧
    ((((analyse_function fnScenario5 (List.replicate 6 (-1))).variable_infos.getD 0
          defaultVariableInfo).lifetime_start = 0 ∧
      ((analyse_function fnScenario5 (List.replicate 6 (-1))).variable_infos.getD 0
          defaultVariableInfo).lifetime_end = 6 ∧
      ((analyse_function fnScenario5 (List.replicate 6 (-1))).variable_infos.getD 1
          defaultVariableInfo).lifetime_start = 1 ∧
      ((analyse_function fnScenario5 (List.replicate 6 (-1))).variable_infos.getD 1
          defaultVariableInfo).lifetime_end = 5 ∧
      ((analyse_function fnScenario5 (List.replicate 6 (-1))).variable_infos.getD 0
          defaultVariableInfo).flags.eternal = false ∧
      ((analyse_function fnScenario5 (List.replicate 6 (-1))).variable_infos.getD 1
          defaultVariableInfo).flags.eternal = false) ↔ False) := by
  decide

/-- C1 (amended): what the code actually computes on scenario 5 when
the uninitialized `jump_from` slots read as -1: `v0` gets `[0, 5)`
(the closure at opcode 2 follows the backward GOTO at 4, and the
`lifetime_end >= index` guard stops the RETURN at 5 from extending to
6), `v1` gets `[1, 2)` (its read at opcode 2 is diverted by the
OR-typo address test before `extend` is reached), and both variables
are flagged ETERNAL because the address test accepts every variable
primary operand. -/
theorem C1_amended_scenario5 :
    (analyse_function fnScenario5 (List.replicate 6 (-1))).variable_infos =
      [⟨0, 5, ⟨false, false, true, false⟩⟩, ⟨1, 2, ⟨false, true, true, false⟩⟩] := by
  decide

/-! ## C10: every variable primary operand is marked ETERNAL -/

theorem address_load_eq_variable (o : Operand) :
    operand_is_variable_address_load o = operand_is_variable o := by
  unfold operand_is_variable_address_load
  have h : o.info_flags ||| OPERAND_FLAG_ADDRESS ≠ 0 := by
    intro h0
    have h2 := Nat.testBit_lor o.info_flags OPERAND_FLAG_ADDRESS 0
    rw [h0] at h2
    simp [Nat.testBit, OPERAND_FLAG_ADDRESS] at h2
  cases hv : operand_is_variable o <;> simp [hv, h]

theorem getD_set_cases {α : Type} (l : List α) (r v : Nat) (x d : α) :
    (l.set r x).getD v d = l.getD v d ∨
      (v = r ∧ r < l.length ∧ (l.set r x).getD v d = x) := by
  by_cases h1 : v = r
  · subst h1
    by_cases h2 : v < l.length
    · exact Or.inr ⟨rfl, h2, getD_set_self l v x d h2⟩
    · exact Or.inl (by rw [List.set_eq_of_length_le (by omega)])
  · exact Or.inl (getD_set_ne l r v x d fun h => h1 h.symm)

theorem pass3_step_eq (infos : List OpcodeInfo) (ops : List Opcode)
    (vars : List VariableInfo) (i : Nat) :
    analyse_pass3_step infos ops vars i =
      (let op := ops.getD i defaultOpcode
       let pure_assign := opcode_is_pure_assignment op
       let vars1 :=
         if operand_is_variable op.operand_target &&
             (pure_assign || opcode_modifies_target_operand op) then
           vars.set op.operand_target.ref_id
             (extend_variable_lifetime infos
               (vars.getD op.operand_target.ref_id defaultVariableInfo) (i : Int)
               pure_assign)
         else vars
       let vars2 :=
         if operand_is_variable op.operand_primary_1 then
           mark_eternal vars1 op.operand_primary_1.ref_id
         else vars1
       if operand_is_variable op.operand_primary_2 then
         mark_eternal vars2 op.operand_primary_2.ref_id
       else vars2) := by
  unfold analyse_pass3_step mark_eternal
  simp only [address_load_eq_variable]
  cases h1 : operand_is_variable (ops.getD i defaultOpcode).operand_primary_1 <;>
    cases h2 : operand_is_variable (ops.getD i defaultOpcode).operand_primary_2 <;>
    simp [h1, h2]

theorem extend_eternal_persist (infos : List OpcodeInfo) (var : VariableInfo)
    (index : Int) (pure_assignment : Bool) (h : var.flags.eternal = true) :
    extend_variable_lifetime infos var index pure_assignment = var := by
  simp [extend_variable_lifetime, h]

theorem pass3_step_length (infos : List OpcodeInfo) (ops : List Opcode)
    (vars : List VariableInfo) (i : Nat) :
    (analyse_pass3_step infos ops vars i).length = vars.length := by
  rw [pass3_step_eq]
  simp only [mark_eternal]
  split <;> split <;> split <;> simp [List.length_set]

theorem set_extend_eternal (infos : List OpcodeInfo) (l : List VariableInfo) (r : Nat)
    (idx : Int) (p : Bool) (v : Nat)
    (h : (l.getD v defaultVariableInfo).flags.eternal = true) :
    ((l.set r (extend_variable_lifetime infos (l.getD r defaultVariableInfo) idx p)).getD v
      defaultVariableInfo).flags.eternal = true := by
  rcases getD_set_cases l r v
      (extend_variable_lifetime infos (l.getD r defaultVariableInfo) idx p)
      defaultVariableInfo with hc | ⟨he, _, hc⟩
  · rw [hc]; exact h
  · subst he; rw [hc, extend_eternal_persist infos _ idx p h]; exact h

theorem mark_eternal_getD (l : List VariableInfo) (r v : Nat)
    (h : (l.getD v defaultVariableInfo).flags.eternal = true) :
    ((mark_eternal l r).getD v defaultVariableInfo).flags.eternal = true := by
  unfold mark_eternal
  rcases getD_set_cases l r v
      { l.getD r defaultVariableInfo with
        flags := { (l.getD r defaultVariableInfo).flags with eternal := true } }
      defaultVariableInfo with hc | ⟨he, _, hc⟩
  · rw [hc]; exact h
  · rw [hc]

theorem mark_eternal_getD_self (l : List VariableInfo) (r : Nat) (h : r < l.length) :
    ((mark_eternal l r).getD r defaultVariableInfo).flags.eternal = true := by
  unfold mark_eternal
  rw [getD_set_self _ _ _ _ h]

theorem ite_list_eternal (c : Prop) [Decidable c] (l1 l2 : List VariableInfo) (v : Nat)
    (h1 : c → ((l1.getD v defaultVariableInfo).flags.eternal = true))
    (h2 : ¬c → ((l2.getD v defaultVariableInfo).flags.eternal = true)) :
    (((if c then l1 else l2).getD v defaultVariableInfo).flags.eternal = true) := by
  split
  · exact h1 (by assumption)
  · exact h2 (by assumption)

theorem pass3_step_eternal_persist (infos : List OpcodeInfo) (ops : List Opcode)
    (vars : List VariableInfo) (i v : Nat)
    (h : (vars.getD v defaultVariableInfo).flags.eternal = true) :
    ((analyse_pass3_step infos ops vars i).getD v defaultVariableInfo).flags.eternal =
      true := by
  rw [pass3_step_eq]
  refine ite_list_eternal _ _ _ v (fun _ => mark_eternal_getD _ _ v ?_)
    (fun _ => ?_) <;>
  · refine ite_list_eternal _ _ _ v (fun _ => mark_eternal_getD _ _ v ?_) (fun _ => ?_) <;>
    · refine ite_list_eternal _ _ _ v (fun _ => set_extend_eternal infos vars _ _ _ v h)
        (fun _ => h)

theorem pass3_go_eternal_persist (infos : List OpcodeInfo) (ops : List Opcode) :
    ∀ k i : Nat, ∀ vars : List VariableInfo, ∀ v : Nat,
      (vars.getD v defaultVariableInfo).flags.eternal = true →
      ((analyse_pass3_go infos ops vars i k).getD v defaultVariableInfo).flags.eternal =
        true := by
  intro k
  induction k with
  | zero => intro i vars v h; exact h
  | succ k ih =>
    intro i vars v h
    exact ih (i + 1) (analyse_pass3_step infos ops vars i) v
      (pass3_step_eternal_persist infos ops vars i v h)

theorem pass3_go_length (infos : List OpcodeInfo) (ops : List Opcode) :
    ∀ k i : Nat, ∀ vars : List VariableInfo,
      (analyse_pass3_go infos ops vars i k).length = vars.length := by
  intro k
  induction k with
  | zero => intro i vars; rfl
  | succ k ih =>
    intro i vars
    rw [show analyse_pass3_go infos ops vars i (k + 1) =
        analyse_pass3_go infos ops (analyse_pass3_step infos ops vars i) (i + 1) k from rfl,
      ih, pass3_step_length]

theorem pass3_step_establish_eternal (infos : List OpcodeInfo) (ops : List Opcode)
    (vars : List VariableInfo) (i v : Nat) (hv : v < vars.length)
    (hocc : (operand_is_variable (ops.getD i defaultOpcode).operand_primary_1 = true ∧
        (ops.getD i defaultOpcode).operand_primary_1.ref_id = v) ∨
      (operand_is_variable (ops.getD i defaultOpcode).operand_primary_2 = true ∧
        (ops.getD i defaultOpcode).operand_primary_2.ref_id = v)) :
    ((analyse_pass3_step infos ops vars i).getD v defaultVariableInfo).flags.eternal =
      true := by
  rw [pass3_step_eq]
  dsimp only
  rcases hocc with ⟨hvar, href⟩ | ⟨hvar, href⟩
  · refine ite_list_eternal _ _ _ v (fun _ => mark_eternal_getD _ _ v ?_) (fun _ => ?_) <;>
    · rw [hvar, if_pos rfl, href]
      refine mark_eternal_getD_self _ v ?_
      split <;> simp [List.length_set, hv]
  · rw [hvar, if_pos rfl, href]
    refine mark_eternal_getD_self _ v ?_
    split <;> split <;> simp [mark_eternal, List.length_set, hv]

theorem pass3_go_establish_eternal (infos : List OpcodeInfo) (ops : List Opcode) :
    ∀ k i : Nat, ∀ vars : List VariableInfo, ∀ j v : Nat,
      i ≤ j → j < i + k → v < vars.length →
      ((operand_is_variable (ops.getD j defaultOpcode).operand_primary_1 = true ∧
          (ops.getD j defaultOpcode).operand_primary_1.ref_id = v) ∨
        (operand_is_variable (ops.getD j defaultOpcode).operand_primary_2 = true ∧
          (ops.getD j defaultOpcode).operand_primary_2.ref_id = v)) →
      ((analyse_pass3_go infos ops vars i k).getD v defaultVariableInfo).flags.eternal =
        true := by
  intro k
  induction k with
  | zero => intro i vars j v h1 h2; omega
  | succ k ih =>
    intro i vars j v h1 h2 hv hocc
    rw [show analyse_pass3_go infos ops vars i (k + 1) =
        analyse_pass3_go infos ops (analyse_pass3_step infos ops vars i) (i + 1) k from rfl]
    by_cases hji : j = i
    · subst hji
      exact pass3_go_eternal_persist infos ops k (j + 1) _ v
        (pass3_step_establish_eternal infos ops vars j v hv hocc)
    · exact ih (i + 1) _ j v (by omega) (by omega)
        (by rw [pass3_step_length]; exact hv) hocc

/-- C10: the primary-operand address-taken test accepts every variable
operand (its flag test ORs the flag word with the nonzero ADDRESS bit
instead of masking it), so after analysis every variable that occurs
as a VARIABLE-typed operand in the primary_1 or primary_2 position of
any opcode is flagged ETERNAL, whatever its ADDRESS flag — and this
holds for every residue of the uninitialized info array. -/
theorem C10_primary_operand_eternal :
    (∀ o : Operand, operand_is_variable_address_load o = operand_is_variable o) ∧
    ∀ fn : Function, ∀ junk : List Int, ∀ i v : Nat,
      v < fn.variables_size →
      ((operand_is_variable (opcodeAt fn i).operand_primary_1 = true ∧
          (opcodeAt fn i).operand_primary_1.ref_id = v ∧ i < fn.opcodes.length) ∨
        (operand_is_variable (opcodeAt fn i).operand_primary_2 = true ∧
          (opcodeAt fn i).operand_primary_2.ref_id = v ∧ i < fn.opcodes.length)) →
      ((analyse_function fn junk).variable_infos.getD v
        defaultVariableInfo).flags.eternal = true := by
  refine ⟨address_load_eq_variable, ?_⟩
  intro fn junk i v hv hocc
  unfold analyse_function
  refine pass3_go_establish_eternal _ _ fn.opcodes.length 0 _ i v (by omega) ?_
    (by simp [List.length_replicate]; exact hv) ?_
  · rcases hocc with ⟨_, _, h⟩ | ⟨_, _, h⟩ <;> omega
  · rcases hocc with ⟨a, b, _⟩ | ⟨a, b, _⟩
    · exact Or.inl ⟨a, b⟩
    · exact Or.inr ⟨a, b⟩

/-! ## Pass 1 characterization -/

theorem pass1_length (ops : List Opcode) :
    ∀ k : Nat, ∀ infos : List OpcodeInfo,
      (analyse_pass1 ops infos k).length = infos.length := by
  intro k
  induction k with
  | zero => intro infos; rfl
  | succ k ih =>
    intro infos
    unfold analyse_pass1
    dsimp only
    rw [ih]
    split <;> [skip; rfl]
    split <;> simp [List.length_set]

theorem pass1_pl (ops : List Opcode) :
    ∀ k : Nat, ∀ infos : List OpcodeInfo, ∀ t : Nat,
      ((analyse_pass1 ops infos k).getD t defaultOpcodeInfo).previous_label =
        ((infos.getD t defaultOpcodeInfo)).previous_label := by
  intro k
  induction k with
  | zero => intro infos t; rfl
  | succ k ih =>
    intro infos t
    unfold analyse_pass1
    dsimp only
    rw [ih]
    split <;> [skip; rfl]
    split <;> [rfl; skip]
    rcases getD_set_cases infos (ops.getD k defaultOpcode).operand_target.ref_id t
        { infos.getD (ops.getD k defaultOpcode).operand_target.ref_id defaultOpcodeInfo with
          jump_from := (k : Int) } defaultOpcodeInfo with hc | ⟨he, _, hc⟩
    · rw [hc]
    · subst he; rw [hc]

theorem pass1_nonneg_frozen (ops : List Opcode) :
    ∀ k : Nat, ∀ infos : List OpcodeInfo, ∀ t : Nat,
      0 ≤ (infos.getD t defaultOpcodeInfo).jump_from →
      (analyse_pass1 ops infos k).getD t defaultOpcodeInfo =
        infos.getD t defaultOpcodeInfo := by
  intro k
  induction k with
  | zero => intro infos t _; rfl
  | succ k ih =>
    intro infos t ht
    unfold analyse_pass1
    dsimp only
    split <;> [skip; exact ih infos t ht]
    split <;> [exact ih infos t ht; skip]
    rename_i hjump hneg
    have hne : (ops.getD k defaultOpcode).operand_target.ref_id ≠ t := by
      intro he; rw [he] at hneg; exact hneg ht
    rw [ih _ t (by rw [getD_set_ne _ _ _ _ _ hne]; exact ht),
      getD_set_ne _ _ _ _ _ hne]

theorem opcode_jumps_to_spec (fn : Function) (t i : Nat) :
    opcode_jumps_to fn t i = true ↔
      opcode_is_jump (opcodeAt fn i) = true ∧ (opcodeAt fn i).operand_target.ref_id = t := by
  unfold opcode_jumps_to
  constructor
  · intro h
    have := Bool.and_elim_left h
    have h2 := Bool.and_elim_right h
    exact ⟨this, by simpa using h2⟩
  · intro ⟨a, b⟩
    simp [a, b]

theorem pass1_untouched (fn : Function) :
    ∀ k : Nat, ∀ infos : List OpcodeInfo, ∀ t : Nat,
      (∀ i, i < k → opcode_jumps_to fn t i = false) →
      (analyse_pass1 fn.opcodes infos k).getD t defaultOpcodeInfo =
        infos.getD t defaultOpcodeInfo := by
  intro k
  induction k with
  | zero => intro infos t _; rfl
  | succ k ih =>
    intro infos t hno
    unfold analyse_pass1
    dsimp only
    split <;> [skip; exact ih infos t fun i hi => hno i (by omega)]
    split <;> [exact ih infos t fun i hi => hno i (by omega); skip]
    rename_i hjump _
    have hne : (fn.opcodes.getD k defaultOpcode).operand_target.ref_id ≠ t := by
      intro he
      have hk : opcode_jumps_to fn t k = true := (opcode_jumps_to_spec fn t k).mpr ⟨hjump, he⟩
      rw [hno k (by omega)] at hk
      exact Bool.noConfusion hk
    rw [ih _ t fun i hi => hno i (by omega), getD_set_ne _ _ _ _ _ hne]

theorem pass1_greatest (fn : Function) :
    ∀ k : Nat, ∀ infos : List OpcodeInfo, ∀ t g : Nat,
      g < k → opcode_jumps_to fn t g = true →
      (∀ i, g < i → i < k → opcode_jumps_to fn t i = false) →
      (infos.getD t defaultOpcodeInfo).jump_from < 0 → t < infos.length →
      (analyse_pass1 fn.opcodes infos k).getD t defaultOpcodeInfo =
        { infos.getD t defaultOpcodeInfo with jump_from := (g : Int) } := by
  intro k
  induction k with
  | zero => intro infos t g hg; omega
  | succ k ih =>
    intro infos t g hg hj hafter hneg ht
    by_cases hgk : g = k
    · subst hgk
      obtain ⟨hjump, href⟩ := (opcode_jumps_to_spec fn t g).mp hj
      have hjump2 : opcode_is_jump (fn.opcodes.getD g defaultOpcode) = true := hjump
      have href2 : (fn.opcodes.getD g defaultOpcode).operand_target.ref_id = t := href
      unfold analyse_pass1
      dsimp only
      rw [if_pos hjump2, href2, if_neg (by omega)]
      rw [pass1_nonneg_frozen fn.opcodes g _ t
        (by rw [getD_set_self _ _ _ _ ht]; exact Int.natCast_nonneg g)]
      rw [getD_set_self _ _ _ _ ht]
    · have hgltk : g < k := by omega
      have hnot : opcode_jumps_to fn t k = false := hafter k (by omega) (by omega)
      unfold analyse_pass1
      dsimp only
      split <;> [skip; exact ih infos t g hgltk hj (fun i a b => hafter i a (by omega)) hneg ht]
      split <;>
        [exact ih infos t g hgltk hj (fun i a b => hafter i a (by omega)) hneg ht; skip]
      rename_i hjump _
      have hne : (fn.opcodes.getD k defaultOpcode).operand_target.ref_id ≠ t := by
        intro he
        have hk : opcode_jumps_to fn t k = true := (opcode_jumps_to_spec fn t k).mpr ⟨hjump, he⟩
        rw [hnot] at hk
        exact Bool.noConfusion hk
      rw [ih _ t g hgltk hj (fun i a b => hafter i a (by omega))
          (by rw [getD_set_ne _ _ _ _ _ hne]; exact hneg)
          (by simp [List.length_set]; exact ht),
        getD_set_ne _ _ _ _ _ hne]

theorem pass1_jf_bound (ops : List Opcode) :
    ∀ k : Nat, ∀ infos : List OpcodeInfo, ∀ B : Int,
      (∀ t : Nat, (infos.getD t defaultOpcodeInfo).jump_from < B) → (k : Int) ≤ B →
      ∀ t : Nat, ((analyse_pass1 ops infos k).getD t defaultOpcodeInfo).jump_from < B := by
  intro k
  induction k with
  | zero => intro infos B h _ t; exact h t
  | succ k ih =>
    intro infos B h hk t
    unfold analyse_pass1
    dsimp only
    split <;> [skip; exact ih infos B h (by omega) t]
    split <;> [exact ih infos B h (by omega) t; skip]
    refine ih _ B ?_ (by omega) t
    intro t2
    rcases getD_set_cases infos (ops.getD k defaultOpcode).operand_target.ref_id t2
        { infos.getD (ops.getD k defaultOpcode).operand_target.ref_id defaultOpcodeInfo with
          jump_from := (k : Int) } defaultOpcodeInfo with hc | ⟨he, _, hc⟩
    · rw [hc]; exact h t2
    · rw [hc]; simpa using by omega

/-! ## Pass 2 characterization -/

theorem pass2_go_spec :
    ∀ k : Nat, ∀ prev : Int, ∀ infos : List OpcodeInfo, ∀ i : Nat,
      prev < (i : Int) → -1 ≤ prev →
      (∀ t : Nat, (t : Int) < (i : Int) →
        0 ≤ (infos.getD t defaultOpcodeInfo).jump_from → (t : Int) ≤ prev) →
      (analyse_pass2_go prev infos i k).length = infos.length ∧
      (∀ t : Nat, ((analyse_pass2_go prev infos i k).getD t defaultOpcodeInfo).jump_from =
        (infos.getD t defaultOpcodeInfo).jump_from) ∧
      (∀ p : Nat, p < i → (analyse_pass2_go prev infos i k).getD p defaultOpcodeInfo =
        infos.getD p defaultOpcodeInfo) ∧
      (∀ p : Nat, i ≤ p → p < i + k → p < infos.length →
        ((analyse_pass2_go prev infos i k).getD p defaultOpcodeInfo).previous_label <
            (p : Int) ∧
          -1 ≤ ((analyse_pass2_go prev infos i k).getD p defaultOpcodeInfo).previous_label ∧
          ∀ t : Nat, (t : Int) < (p : Int) →
            0 ≤ (infos.getD t defaultOpcodeInfo).jump_from →
            (t : Int) ≤
              ((analyse_pass2_go prev infos i k).getD p defaultOpcodeInfo).previous_label) := by
  intro k
  induction k with
  | zero =>
    intro prev infos i hp1 hp2 hp3
    exact ⟨rfl, fun t => rfl, fun p _ => rfl, fun p h1 h2 => by omega⟩
  | succ k ih =>
    intro prev infos i hp1 hp2 hp3
    have heq : analyse_pass2_go prev infos i (k + 1) =
        analyse_pass2_go
          (if 0 ≤ (infos.getD i defaultOpcodeInfo).jump_from then (i : Int) else prev)
          (infos.set i
            { infos.getD i defaultOpcodeInfo with previous_label := prev }) (i + 1) k := rfl
    have hlen1 : (infos.set i
        { infos.getD i defaultOpcodeInfo with previous_label := prev }).length =
        infos.length := List.length_set infos i _
    have hjf1 : ∀ t : Nat,
        ((infos.set i
          { infos.getD i defaultOpcodeInfo with previous_label := prev }).getD t
            defaultOpcodeInfo).jump_from =
        (infos.getD t defaultOpcodeInfo).jump_from := by
      intro t
      rcases getD_set_cases infos i t
          { infos.getD i defaultOpcodeInfo with previous_label := prev }
          defaultOpcodeInfo with hc | ⟨he, _, hc⟩
      · rw [hc]
      · subst he; rw [hc]
    have hne1 : ∀ p : Nat, p ≠ i →
        (infos.set i
          { infos.getD i defaultOpcodeInfo with previous_label := prev }).getD p
            defaultOpcodeInfo = infos.getD p defaultOpcodeInfo := by
      intro p hp
      exact getD_set_ne _ _ _ _ _ fun h => hp h.symm
    obtain ⟨ihlen, ihjf, ihlo, ihpl⟩ :=
      ih (if 0 ≤ (infos.getD i defaultOpcodeInfo).jump_from then (i : Int) else prev)
        (infos.set i { infos.getD i defaultOpcodeInfo with previous_label := prev }) (i + 1)
        (by split <;> [push_cast; skip] <;> omega)
        (by split <;> omega)
        (by
          intro t ht hjf
          rw [hjf1 t] at hjf
          by_cases hti : t = i
          · subst hti
            rw [if_pos hjf]
          · have htlt : (t : Int) < (i : Int) := by
              have : t ≠ i := hti
              push_cast at ht ⊢
              omega
            have := hp3 t htlt hjf
            split <;> omega)
    refine ⟨?_, ?_, ?_, ?_⟩
    · rw [heq, ihlen, hlen1]
    · intro t
      rw [heq, ihjf t, hjf1 t]
    · intro p hp
      rw [heq, ihlo p (by omega), hne1 p (by omega)]
    · intro p hpi hpk hplen
      by_cases hpi2 : p = i
      · subst hpi2
        rw [heq, ihlo p (by omega), getD_set_self _ _ _ _ hplen]
        exact ⟨hp1, hp2, fun t ht hjf => hp3 t ht hjf⟩
      · obtain ⟨a, b, c⟩ := ihpl p (by omega) (by omega) (by rw [hlen1]; exact hplen)
        rw [heq]
        refine ⟨a, b, ?_⟩
        intro t ht hjf
        exact c t ht (by rw [hjf1 t]; exact hjf)

theorem infos0_jf_neg (junk : List Int) (hjunk : ∀ j ∈ junk, j < 0) :
    ∀ t : Nat,
      (((junk.map fun j => OpcodeInfo.mk j j).getD t defaultOpcodeInfo)).jump_from < 0 := by
  intro t
  rw [List.getD_eq_getElem?_getD, List.getElem?_map]
  cases h : junk[t]? with
  | none => simp [defaultOpcodeInfo]
  | some j =>
    have hm : j ∈ junk := by
      have := List.getElem?_eq_some_iff.mp h
      obtain ⟨hlt, heq⟩ := this
      exact heq ▸ List.getElem_mem hlt
    simpa using hjunk j hm

theorem analyse_infos_spec (fn : Function) (junk : List Int)
    (hlen : junk.length = fn.opcodes.length) (hjunk : ∀ j ∈ junk, j < 0) :
    (analyse_function fn junk).infos.length = fn.opcodes.length ∧
    ChainDesc (analyse_function fn junk).infos ∧
    ChainComplete (analyse_function fn junk).infos ∧
    JumpFromBound (analyse_function fn junk).infos ∧
    (∀ t : Nat, ((analyse_function fn junk).infos.getD t defaultOpcodeInfo).jump_from =
      ((analyse_pass1 fn.opcodes (junk.map fun j => OpcodeInfo.mk j j)
          fn.opcodes.length).getD t defaultOpcodeInfo).jump_from) := by
  have hmap : (junk.map fun j => OpcodeInfo.mk j j).length = fn.opcodes.length := by
    rw [List.length_map, hlen]
  have hlen1 : (analyse_pass1 fn.opcodes (junk.map fun j => OpcodeInfo.mk j j)
      fn.opcodes.length).length = fn.opcodes.length := by
    rw [pass1_length, hmap]
  have hbound1 : ∀ t : Nat,
      ((analyse_pass1 fn.opcodes (junk.map fun j => OpcodeInfo.mk j j)
        fn.opcodes.length).getD t defaultOpcodeInfo).jump_from < (fn.opcodes.length : Int) := by
    refine pass1_jf_bound fn.opcodes fn.opcodes.length _ (fn.opcodes.length : Int) ?_ le_rfl
    intro t
    have := infos0_jf_neg junk hjunk t
    omega
  have hinfos : (analyse_function fn junk).infos =
      analyse_pass2_go (-1)
        (analyse_pass1 fn.opcodes (junk.map fun j => OpcodeInfo.mk j j) fn.opcodes.length) 0
        (analyse_pass1 fn.opcodes (junk.map fun j => OpcodeInfo.mk j j)
          fn.opcodes.length).length := rfl
  obtain ⟨h2len, h2jf, _, h2pl⟩ :=
    pass2_go_spec
      (analyse_pass1 fn.opcodes (junk.map fun j => OpcodeInfo.mk j j)
        fn.opcodes.length).length (-1)
      (analyse_pass1 fn.opcodes (junk.map fun j => OpcodeInfo.mk j j) fn.opcodes.length) 0
      (by omega) le_rfl (by intro t ht; omega)
  have hfinlen : (analyse_function fn junk).infos.length = fn.opcodes.length := by
    rw [hinfos, h2len, hlen1]
  refine ⟨hfinlen, ?_, ?_, ?_, ?_⟩
  · intro p
    by_cases hp : p < (analyse_function fn junk).infos.length
    · rw [hinfos] at hp ⊢
      exact (h2pl p (by omega) (by omega) (by omega)).1
    · rw [getD_of_length_le _ _ _ (by omega)]
      simp [defaultOpcodeInfo]
      omega
  · intro p hp t ht hjf
    rw [hinfos] at hp hjf ⊢
    refine (h2pl p (by omega) (by omega) (by omega)).2.2 t ht ?_
    rw [← h2jf t]
    exact hjf
  · intro p
    rw [hfinlen, hinfos, h2jf p]
    by_cases hp : p < fn.opcodes.length
    · exact hbound1 p
    · rw [getD_of_length_le _ _ _ (by omega)]
      simp [defaultOpcodeInfo]
      omega
  · intro t
    rw [hinfos, h2jf t]

/-! ## C4: jump_from discovery -/

/-- C4 counterexample: `analyse_function` never initializes the info
array, so on the one-opcode function [NOP] a residual value 5 in the
`malloc`'d slot survives the analysis: `infos[0].jump_from = 5` even
though no jump targets index 0, where the claim requires -1. -/
theorem C4_counterexample_residual_slot :
    ((analyse_function fnSingleNop [5]).infos.getD 0 defaultOpcodeInfo).jump_from = 5 ∧
    opcode_jumps_to fnSingleNop 0 0 = false ∧
    ¬((analyse_function fnSingleNop [5]).infos.getD 0 defaultOpcodeInfo).jump_from = -1 := by
  decide

/-- C4 (amended): provided the `malloc`'d jump_from slots are taken as
-1 (the explicit initialization §9.2 of the specification calls for),
after analysis `infos[t].jump_from` equals the highest index of a jump
whose target operand ref_id is `t`, and equals -1 when no jump targets
`t`. -/
theorem C4_amended_latest_jump_source (fn : Function) (t : Nat)
    (ht : t < fn.opcodes.length) :
    (((analyse_function fn (List.replicate fn.opcodes.length (-1))).infos.getD t
        defaultOpcodeInfo).jump_from = -1 ∧
      ∀ i, i < fn.opcodes.length → opcode_jumps_to fn t i = false) ∨
    (∃ g, g < fn.opcodes.length ∧ opcode_jumps_to fn t g = true ∧
      ((analyse_function fn (List.replicate fn.opcodes.length (-1))).infos.getD t
        defaultOpcodeInfo).jump_from = (g : Int) ∧
      ∀ i, g < i → i < fn.opcodes.length → opcode_jumps_to fn t i = false) := by
  have hlen : (List.replicate fn.opcodes.length (-1 : Int)).length = fn.opcodes.length :=
    List.length_replicate _ _
  have hjunk : ∀ j ∈ List.replicate fn.opcodes.length (-1 : Int), j < 0 := by
    intro j hj
    rw [List.eq_of_mem_replicate hj]
    omega
  obtain ⟨_, _, _, _, hjf⟩ := analyse_infos_spec fn _ hlen hjunk
  have h0 : ((List.replicate fn.opcodes.length (-1 : Int)).map
      (fun j => OpcodeInfo.mk j j)).getD t defaultOpcodeInfo = OpcodeInfo.mk (-1) (-1) := by
    rw [List.getD_eq_getElem?_getD, List.getElem?_map, List.getElem?_replicate, if_pos ht]
    rfl
  by_cases hex : ∃ i, i < fn.opcodes.length ∧ opcode_jumps_to fn t i = true
  · obtain ⟨i0, hi0, hji0⟩ := hex
    right
    have hn1 : 0 < fn.opcodes.length := by omega
    have hspec : opcode_jumps_to fn t
        (Nat.findGreatest (fun i => opcode_jumps_to fn t i = true)
          (fn.opcodes.length - 1)) = true :=
      @Nat.findGreatest_spec i0 (fun i => opcode_jumps_to fn t i = true) _
        (fn.opcodes.length - 1) (by omega) hji0
    have hgle : Nat.findGreatest (fun i => opcode_jumps_to fn t i = true)
        (fn.opcodes.length - 1) ≤ fn.opcodes.length - 1 := Nat.findGreatest_le _
    have hmax : ∀ i, Nat.findGreatest (fun i => opcode_jumps_to fn t i = true)
        (fn.opcodes.length - 1) < i → i < fn.opcodes.length →
        opcode_jumps_to fn t i = false := by
      intro i hgi hin
      have := Nat.findGreatest_is_greatest hgi (by omega :
        i ≤ fn.opcodes.length - 1)
      simpa using this
    refine ⟨_, by omega, hspec, ?_, hmax⟩
    rw [hjf t, pass1_greatest fn fn.opcodes.length _ t _ (by omega) hspec hmax
      (by rw [h0]; decide) (by rw [List.length_map, hlen]; exact ht), h0]
  · left
    push_neg at hex
    have hall : ∀ i, i < fn.opcodes.length → opcode_jumps_to fn t i = false := by
      intro i hi
      have := hex i hi
      simpa using this
    refine ⟨?_, hall⟩
    rw [hjf t, pass1_untouched fn fn.opcodes.length _ t hall, h0]

theorem C4_amended_latest_jump_source_witness :
    (((analyse_function fnBackJump (List.replicate fnBackJump.opcodes.length (-1))).infos.getD
        0 defaultOpcodeInfo).jump_from = -1 ∧
      ∀ i, i < fnBackJump.opcodes.length → opcode_jumps_to fnBackJump 0 i = false) ∨
    (∃ g, g < fnBackJump.opcodes.length ∧ opcode_jumps_to fnBackJump 0 g = true ∧
      ((analyse_function fnBackJump (List.replicate fnBackJump.opcodes.length (-1))).infos.getD
        0 defaultOpcodeInfo).jump_from = (g : Int) ∧
      ∀ i, g < i → i < fnBackJump.opcodes.length → opcode_jumps_to fnBackJump 0 i = false) :=
  C4_amended_latest_jump_source fnBackJump 0 (by decide)

/-! ## Backward-jump closure: scan and loop lemmas -/

theorem extend_scan_ge (infos : List OpcodeInfo) (minimum : Int) :
    ∀ fuel : Nat, ∀ mjp pos : Int, mjp ≤ extend_scan infos minimum mjp pos fuel := by
  intro fuel
  induction fuel with
  | zero => intro mjp pos; exact le_refl mjp
  | succ fuel ih =>
    intro mjp pos
    simp only [extend_scan]
    split
    · refine le_trans ?_ (ih _ _)
      split <;> omega
    · exact le_refl mjp

theorem extend_scan_le (infos : List OpcodeInfo) (minimum B : Int)
    (hB : ∀ p : Nat, (infos.getD p defaultOpcodeInfo).jump_from ≤ B) :
    ∀ fuel : Nat, ∀ mjp pos : Int, mjp ≤ B →
      extend_scan infos minimum mjp pos fuel ≤ B := by
  intro fuel
  induction fuel with
  | zero => intro mjp pos h; exact h
  | succ fuel ih =>
    intro mjp pos h
    simp only [extend_scan]
    split
    · refine ih _ _ ?_
      have := hB pos.toNat
      split <;> omega
    · exact h

theorem extend_scan_cover (infos : List OpcodeInfo) (minimum : Int)
    (hcd : ChainDesc infos) (hcc : ChainComplete infos) (hmin : 1 ≤ minimum) :
    ∀ fuel : Nat, ∀ mjp pos : Int, 0 ≤ mjp → pos < (infos.length : Int) →
      (pos + 1 - minimum).toNat < fuel →
      ∀ t : Nat, minimum ≤ (t : Int) → (t : Int) ≤ pos →
        (infos.getD t defaultOpcodeInfo).jump_from ≤
          extend_scan infos minimum mjp pos fuel := by
  intro fuel
  induction fuel with
  | zero =>
    intro mjp pos _ _ hf t hmt htp
    exfalso
    omega
  | succ fuel ih =>
    intro mjp pos hmjp hpos hf t hmt htp
    have hposge : minimum ≤ pos := le_trans hmt htp
    have hposnat : ((pos.toNat : Nat) : Int) = pos := Int.toNat_of_nonneg (by omega)
    simp only [extend_scan]
    rw [if_pos hposge]
    by_cases hteq : (t : Int) = pos
    · have htn : pos.toNat = t := by omega
      have hjfle : (infos.getD t defaultOpcodeInfo).jump_from ≤
          (if mjp < (infos.getD pos.toNat defaultOpcodeInfo).jump_from then
            (infos.getD pos.toNat defaultOpcodeInfo).jump_from else mjp) := by
        rw [htn]
        split <;> omega
      exact le_trans hjfle (extend_scan_ge infos minimum fuel _ _)
    · have htlt : (t : Int) < pos := by omega
      by_cases hjfneg : (infos.getD t defaultOpcodeInfo).jump_from < 0
      · have hge := extend_scan_ge infos minimum fuel
          (if mjp < (infos.getD pos.toNat defaultOpcodeInfo).jump_from then
            (infos.getD pos.toNat defaultOpcodeInfo).jump_from else mjp)
          (infos.getD pos.toNat defaultOpcodeInfo).previous_label
        have h2 : mjp ≤
            (if mjp < (infos.getD pos.toNat defaultOpcodeInfo).jump_from then
              (infos.getD pos.toNat defaultOpcodeInfo).jump_from else mjp) := by
          split <;> omega
        omega
      · have hplc := hcc pos.toNat (by omega) t (by omega) (by omega)
        have hpld := hcd pos.toNat
        refine ih
          (if mjp < (infos.getD pos.toNat defaultOpcodeInfo).jump_from then
            (infos.getD pos.toNat defaultOpcodeInfo).jump_from else mjp)
          (infos.getD pos.toNat defaultOpcodeInfo).previous_label
          (by split <;> omega) (by omega) (by omega) t hmt hplc

theorem extend_closure_spec (infos : List OpcodeInfo)
    (hcd : ChainDesc infos) (hcc : ChainComplete infos) (hjb : JumpFromBound infos) :
    ∀ fuel : Nat, ∀ minimum mjp : Int, 1 ≤ minimum → 0 ≤ mjp →
      mjp < (infos.length : Int) → (infos.length : Int) + 1 ≤ (fuel : Int) + mjp →
      ∃ M : Int, extend_closure infos minimum mjp fuel = M + 1 ∧ mjp ≤ M ∧
        M < (infos.length : Int) ∧
        ∀ t : Nat, minimum ≤ (t : Int) → (t : Int) ≤ M →
          (infos.getD t defaultOpcodeInfo).jump_from ≤ M := by
  intro fuel
  induction fuel with
  | zero =>
    intro minimum mjp h1 h2 h3 h4
    exfalso
    simp at h4
    omega
  | succ fuel ih =>
    intro minimum mjp h1 h2 h3 h4
    simp only [extend_closure]
    have hge : mjp ≤ extend_scan infos minimum mjp mjp (mjp.toNat + 2) :=
      extend_scan_ge infos minimum _ mjp mjp
    have hle : extend_scan infos minimum mjp mjp (mjp.toNat + 2) ≤
        (infos.length : Int) - 1 := by
      refine extend_scan_le infos minimum ((infos.length : Int) - 1) ?_ _ mjp mjp (by omega)
      intro p
      have := hjb p
      omega
    have hcover : ∀ t : Nat, minimum ≤ (t : Int) → (t : Int) ≤ mjp →
        (infos.getD t defaultOpcodeInfo).jump_from ≤
          extend_scan infos minimum mjp mjp (mjp.toNat + 2) := by
      refine extend_scan_cover infos minimum hcd hcc h1 _ mjp mjp h2 h3 (by omega)
    split
    · rename_i hcont
      obtain ⟨M, hMeq, hMge, hMlt, hMcov⟩ := ih (mjp + 1)
        (extend_scan infos minimum mjp mjp (mjp.toNat + 2)) (by omega) (by omega)
        (by omega) (by omega)
      refine ⟨M, hMeq, by omega, hMlt, ?_⟩
      intro t hmt htM
      by_cases hcase : (t : Int) ≤ mjp
      · exact le_trans (hcover t hmt hcase) (by omega)
      · exact hMcov t (by omega) htM
    · rename_i hstop
      refine ⟨mjp, rfl, le_refl mjp, h3, ?_⟩
      intro t hmt htm
      have := hcover t hmt htm
      omega

/-! ## extend_variable_lifetime specification -/

theorem extend_spec (fn : Function) (infos : List OpcodeInfo)
    (hcd : ChainDesc infos) (hcc : ChainComplete infos) (hjb : JumpFromBound infos)
    (hil : infos.length = fn.opcodes.length)
    (V : VariableInfo) (index : Int) (p : Bool)
    (hi0 : 0 ≤ index) (hin : index < (fn.opcodes.length : Int))
    (h1 : V.flags.uninitialized = true → V.flags.eternal = true)
    (h2 : V.lifetime_start = -1 → V.lifetime_end = -1)
    (h3 : V.lifetime_start ≠ -1 →
      0 ≤ V.lifetime_start ∧ V.lifetime_start < V.lifetime_end ∧
      V.lifetime_end ≤ (fn.opcodes.length : Int) ∧
      ∀ t : Nat, V.lifetime_start < (t : Int) → (t : Int) < V.lifetime_end →
        (infos.getD t defaultOpcodeInfo).jump_from < V.lifetime_end) :
    ∀ V' : VariableInfo, V' = extend_variable_lifetime infos V index p →
      (V'.flags.uninitialized = true → V'.flags.eternal = true) ∧
      (V'.lifetime_start = -1 → V'.lifetime_end = -1 ∧ V.lifetime_start = -1) ∧
      (V'.lifetime_start ≠ -1 →
        0 ≤ V'.lifetime_start ∧ V'.lifetime_start < V'.lifetime_end ∧
        V'.lifetime_end ≤ (fn.opcodes.length : Int) ∧
        ∀ t : Nat, V'.lifetime_start < (t : Int) → (t : Int) < V'.lifetime_end →
          (infos.getD t defaultOpcodeInfo).jump_from < V'.lifetime_end) ∧
      (V.flags.eternal = true → V'.flags.eternal = true) ∧
      (V.lifetime_start = -1 → V.flags.eternal = false → V.flags.uninitialized = false →
        (V'.lifetime_start ≠ -1 ∨ V'.flags.eternal = true)) := by
  intro V' hV'
  by_cases hg : (decide (index ≤ V.lifetime_end) || V.flags.eternal ||
      V.flags.uninitialized) = true
  · have hVV : V' = V := by
      rw [hV']
      unfold extend_variable_lifetime
      rw [if_pos hg]
    subst hVV
    refine ⟨h1, fun hs => ⟨h2 hs, hs⟩, h3, fun h => h, ?_⟩
    intro hs he hu
    exfalso
    simp only [he, hu, Bool.or_false] at hg
    have hend := h2 hs
    simp only [decide_eq_true_eq] at hg
    omega
  · have hgl : V.lifetime_end < index ∧ V.flags.eternal = false ∧
        V.flags.uninitialized = false := by
      simp only [Bool.or_eq_true, decide_eq_true_eq, not_or] at hg
      push_neg at hg
      refine ⟨by omega, ?_, ?_⟩
      · cases h : V.flags.eternal
        · rfl
        · exact absurd h hg.1.2
      · cases h : V.flags.uninitialized
        · rfl
        · exact absurd h hg.2
    by_cases hs : V.lifetime_start = -1
    · have hbranch : V' = if p then
          { V with lifetime_start := index, lifetime_end := index + 1,
                   flags := { V.flags with unused := true } }
        else
          { V with flags := { V.flags with eternal := true, uninitialized := true } } := by
        rw [hV']
        unfold extend_variable_lifetime
        rw [if_neg hg, if_pos (by simpa using hs)]
      cases p
      · simp only [Bool.false_eq_true, if_false] at hbranch
        subst hbranch
        refine ⟨fun _ => rfl, ?_, ?_, fun _ => rfl, fun _ _ _ => Or.inr rfl⟩
        · intro hs2
          exact ⟨h2 hs, hs⟩
        · intro hs2
          exact absurd hs hs2
      · simp only [if_true] at hbranch
        subst hbranch
        refine ⟨?_, ?_, ?_, fun h => h,
          fun _ _ _ => Or.inl (show index ≠ -1 by omega)⟩
        · intro hu
          exact h1 hu
        · intro hs2
          exact absurd hs2 (show index ≠ -1 by omega)
        · intro _
          refine ⟨hi0, show index < index + 1 by omega,
            show index + 1 ≤ (fn.opcodes.length : Int) by omega, ?_⟩
          intro t ht1 ht2
          have ha2 : index < (t : Int) := ht1
          have hb2 : (t : Int) < index + 1 := ht2
          omega
    · have hnum := h3 hs
      obtain ⟨ha, hb, hc, hcov⟩ := hnum
      have hmin : (if V.lifetime_end < V.lifetime_start then V.lifetime_start
          else V.lifetime_end) = V.lifetime_end := by
        rw [if_neg (by omega)]
      obtain ⟨M, hMeq, hMge, hMlt, hMcov⟩ :=
        extend_closure_spec infos hcd hcc hjb (infos.length + 2) V.lifetime_end index
          (by omega) hi0 (by rw [hil]; exact hin) (by push_cast; omega)
      have hbranch : V' =
          { V with lifetime_end := M + 1, flags := { V.flags with unused := p } } := by
        rw [hV']
        unfold extend_variable_lifetime
        rw [if_neg hg, if_neg (by simpa using hs)]
        rw [hmin]
        dsimp only
        rw [hMeq]
      subst hbranch
      have hin2 : index < (infos.length : Int) := by rw [hil]; exact hin
      refine ⟨?_, ?_, ?_, fun h => h, ?_⟩
      · intro hu
        simp only at hu
        exact absurd hu (by simp [hgl.2.2])
      · intro hs2
        simp only at hs2
        exact absurd hs2 hs
      · intro _
        refine ⟨ha, by simp only; omega, by simp only; rw [← hil]; omega, ?_⟩
        intro t ht1 ht2
        simp only at ht1 ht2 ⊢
        by_cases hcase : (t : Int) < V.lifetime_end
        · have := hcov t ht1 hcase
          omega
        · have := hMcov t (by omega) (by omega)
          omega
      · intro hs2
        exact absurd hs2 hs

/-! ## Pass 3 preserves the per-variable invariant -/

theorem VarINV_succ (fn : Function) (infos : List OpcodeInfo) (m v : Nat)
    (V : VariableInfo) (hV : VarINV fn infos m v V)
    (hnt : ¬TriggersVisit fn m v ∨ V.flags.eternal = true ∨ V.lifetime_start ≠ -1) :
    VarINV fn infos (m + 1) v V := by
  obtain ⟨a, b, c, d, e⟩ := hV
  refine ⟨a, b, c, ?_, ?_⟩
  · intro hs
    obtain ⟨i, hi, ht⟩ := d hs
    exact ⟨i, by omega, ht⟩
  · intro het hs i him
    by_cases hil : i < m
    · exact e het hs i hil
    · have : i = m := by omega
      subst this
      rcases hnt with hnt | hnt | hnt
      · exact hnt
      · rw [het] at hnt; exact absurd hnt (by simp)
      · exact absurd hs hnt

theorem VarINV_mark (fn : Function) (infos : List OpcodeInfo) (m : Nat)
    (vars : List VariableInfo) (r v : Nat)
    (h : VarINV fn infos m v (vars.getD v defaultVariableInfo)) :
    VarINV fn infos m v ((mark_eternal vars r).getD v defaultVariableInfo) := by
  unfold mark_eternal
  rcases getD_set_cases vars r v
      { vars.getD r defaultVariableInfo with
        flags := { (vars.getD r defaultVariableInfo).flags with eternal := true } }
      defaultVariableInfo with hc | ⟨he, _, hc⟩
  · rw [hc]; exact h
  · subst he
    rw [hc]
    obtain ⟨a, b, c, d, e⟩ := h
    refine ⟨fun _ => rfl, b, c, d, ?_⟩
    intro het
    exact absurd het (by simp)

theorem TriggersVisit_of_cond (fn : Function) (m v : Nat)
    (hcond : (operand_is_variable (fn.opcodes.getD m defaultOpcode).operand_target &&
      (opcode_is_pure_assignment (fn.opcodes.getD m defaultOpcode) ||
        opcode_modifies_target_operand (fn.opcodes.getD m defaultOpcode))) = true)
    (href : (fn.opcodes.getD m defaultOpcode).operand_target.ref_id = v) :
    TriggersVisit fn m v := by
  rw [Bool.and_eq_true] at hcond
  obtain ⟨h1, h2⟩ := hcond
  rw [Bool.or_eq_true] at h2
  exact ⟨h1, href, h2⟩

theorem cond_of_TriggersVisit (fn : Function) (m v : Nat) (h : TriggersVisit fn m v) :
    (operand_is_variable (fn.opcodes.getD m defaultOpcode).operand_target &&
      (opcode_is_pure_assignment (fn.opcodes.getD m defaultOpcode) ||
        opcode_modifies_target_operand (fn.opcodes.getD m defaultOpcode))) = true ∧
    (fn.opcodes.getD m defaultOpcode).operand_target.ref_id = v := by
  obtain ⟨h1, h2, h3⟩ := h
  refine ⟨?_, h2⟩
  rw [Bool.and_eq_true, Bool.or_eq_true]
  exact ⟨h1, h3⟩

theorem ite_list_VarINV (fn : Function) (infos : List OpcodeInfo) (m v : Nat)
    (c : Prop) [Decidable c] (l1 l2 : List VariableInfo)
    (h1 : c → VarINV fn infos m v (l1.getD v defaultVariableInfo))
    (h2 : ¬c → VarINV fn infos m v (l2.getD v defaultVariableInfo)) :
    VarINV fn infos m v ((if c then l1 else l2).getD v defaultVariableInfo) := by
  split
  · exact h1 (by assumption)
  · exact h2 (by assumption)

theorem pass3_step_VarINV (fn : Function) (infos : List OpcodeInfo)
    (hcd : ChainDesc infos) (hcc : ChainComplete infos) (hjb : JumpFromBound infos)
    (hil : infos.length = fn.opcodes.length)
    (vars : List VariableInfo) (m : Nat) (hm : m < fn.opcodes.length)
    (hvlen : vars.length = fn.variables_size) (hvwf : VarRefsWF fn)
    (h : ∀ v : Nat, VarINV fn infos m v (vars.getD v defaultVariableInfo)) :
    ∀ v : Nat, VarINV fn infos (m + 1) v
      ((analyse_pass3_step infos fn.opcodes vars m).getD v defaultVariableInfo) := by
  intro v
  rw [pass3_step_eq]
  dsimp only
  have h1 : ∀ w : Nat, VarINV fn infos (m + 1) w
      ((if (operand_is_variable (fn.opcodes.getD m defaultOpcode).operand_target &&
          (opcode_is_pure_assignment (fn.opcodes.getD m defaultOpcode) ||
            opcode_modifies_target_operand (fn.opcodes.getD m defaultOpcode))) = true then
        vars.set (fn.opcodes.getD m defaultOpcode).operand_target.ref_id
          (extend_variable_lifetime infos
            (vars.getD (fn.opcodes.getD m defaultOpcode).operand_target.ref_id
              defaultVariableInfo) (m : Int)
            (opcode_is_pure_assignment (fn.opcodes.getD m defaultOpcode)))
      else vars).getD w defaultVariableInfo) := by
    intro w
    split
    · rename_i hcond
      by_cases hw : w = (fn.opcodes.getD m defaultOpcode).operand_target.ref_id
      · rw [hw, getD_set_self _ _ _ _
          (show (fn.opcodes.getD m defaultOpcode).operand_target.ref_id < vars.length by
            rw [hvlen]; exact hvwf m hm (Bool.and_elim_left hcond))]
        obtain ⟨a, b, c, d, e⟩ :=
          h (fn.opcodes.getD m defaultOpcode).operand_target.ref_id
        obtain ⟨E1, E2, E3, E4, E5⟩ := extend_spec fn infos hcd hcc hjb hil
          (vars.getD (fn.opcodes.getD m defaultOpcode).operand_target.ref_id
            defaultVariableInfo) (m : Int)
          (opcode_is_pure_assignment (fn.opcodes.getD m defaultOpcode))
          (by omega) (by omega) a b c _ rfl
        refine ⟨E1, fun hs => (E2 hs).1, E3, ?_, ?_⟩
        · intro _
          exact ⟨m, by omega, TriggersVisit_of_cond fn m _ hcond rfl⟩
        · intro het hs i him
          exfalso
          have hVs : (vars.getD (fn.opcodes.getD m defaultOpcode).operand_target.ref_id
              defaultVariableInfo).lifetime_start = -1 := (E2 hs).2
          have hVe : (vars.getD (fn.opcodes.getD m defaultOpcode).operand_target.ref_id
              defaultVariableInfo).flags.eternal = false := by
            cases hcase : (vars.getD (fn.opcodes.getD m defaultOpcode).operand_target.ref_id
                defaultVariableInfo).flags.eternal
            · rfl
            · rw [E4 hcase] at het; exact absurd het (by simp)
          have hVu : (vars.getD (fn.opcodes.getD m defaultOpcode).operand_target.ref_id
              defaultVariableInfo).flags.uninitialized = false := by
            cases hcase : (vars.getD (fn.opcodes.getD m defaultOpcode).operand_target.ref_id
                defaultVariableInfo).flags.uninitialized
            · rfl
            · rw [a hcase] at hVe; exact absurd hVe (by simp)
          rcases E5 hVs hVe hVu with hcase | hcase
          · exact hcase hs
          · rw [hcase] at het; exact absurd het (by simp)
      · rw [getD_set_ne _ _ _ _ _ fun hh => hw hh.symm]
        refine VarINV_succ fn infos m w _ (h w) (Or.inl ?_)
        intro ht
        exact hw ((cond_of_TriggersVisit fn m w ht).2).symm
    · rename_i hcond
      refine VarINV_succ fn infos m w _ (h w) (Or.inl ?_)
      intro ht
      exact hcond (cond_of_TriggersVisit fn m w ht).1
  refine ite_list_VarINV fn infos (m + 1) v _ _ _
    (fun _ => VarINV_mark fn infos (m + 1) _ _ v ?_) (fun _ => ?_) <;>
  · refine ite_list_VarINV fn infos (m + 1) v _ _ _
      (fun _ => VarINV_mark fn infos (m + 1) _ _ v (h1 v)) (fun _ => h1 v)

theorem pass3_go_VarINV (fn : Function) (infos : List OpcodeInfo)
    (hcd : ChainDesc infos) (hcc : ChainComplete infos) (hjb : JumpFromBound infos)
    (hil : infos.length = fn.opcodes.length) (hvwf : VarRefsWF fn) :
    ∀ k i : Nat, ∀ vars : List VariableInfo, i + k ≤ fn.opcodes.length →
      vars.length = fn.variables_size →
      (∀ v : Nat, VarINV fn infos i v (vars.getD v defaultVariableInfo)) →
      ∀ v : Nat, VarINV fn infos (i + k) v
        ((analyse_pass3_go infos fn.opcodes vars i k).getD v defaultVariableInfo) := by
  intro k
  induction k with
  | zero => intro i vars _ _ h v; exact h v
  | succ k ih =>
    intro i vars hik hvlen h v
    rw [show analyse_pass3_go infos fn.opcodes vars i (k + 1) =
      analyse_pass3_go infos fn.opcodes (analyse_pass3_step infos fn.opcodes vars i)
        (i + 1) k from rfl]
    have hstep := pass3_step_VarINV fn infos hcd hcc hjb hil vars i (by omega) hvlen hvwf h
    have := ih (i + 1) (analyse_pass3_step infos fn.opcodes vars i) (by omega)
      (by rw [pass3_step_length]; exact hvlen) hstep v
    rw [show i + (k + 1) = i + 1 + k by omega]
    exact this

theorem analysis_VarINV (fn : Function) (junk : List Int)
    (hlen : junk.length = fn.opcodes.length) (hjunk : ∀ j ∈ junk, j < 0)
    (hvwf : VarRefsWF fn) :
    ∀ v : Nat, VarINV fn (analyse_function fn junk).infos fn.opcodes.length v
      ((analyse_function fn junk).variable_infos.getD v defaultVariableInfo) := by
  obtain ⟨hlen2, hcd, hcc, hjb, _⟩ := analyse_infos_spec fn junk hlen hjunk
  have hvars : (analyse_function fn junk).variable_infos =
      analyse_pass3_go (analyse_function fn junk).infos fn.opcodes
        (List.replicate fn.variables_size defaultVariableInfo) 0 fn.opcodes.length := rfl
  intro v
  rw [hvars]
  have h0 : ∀ w : Nat, VarINV fn (analyse_function fn junk).infos 0 w
      ((List.replicate fn.variables_size defaultVariableInfo).getD w
        defaultVariableInfo) := by
    intro w
    have hD : (List.replicate fn.variables_size defaultVariableInfo).getD w
        defaultVariableInfo = defaultVariableInfo := by
      rw [List.getD_eq_getElem?_getD, List.getElem?_replicate]
      split <;> rfl
    rw [hD]
    refine ⟨fun h => absurd h (by decide), fun _ => rfl, fun h => absurd rfl h, ?_, ?_⟩
    · intro h
      exact absurd rfl h
    · intro _ _ i hi
      omega
  have := pass3_go_VarINV fn (analyse_function fn junk).infos hcd hcc hjb hlen2 hvwf
    fn.opcodes.length 0 (List.replicate fn.variables_size defaultVariableInfo)
    (by omega) (List.length_replicate _ _) h0 v
  simpa using this

/-! ## C9: lifetime bounds -/

/-- C9 counterexample: the lifetime pass reads the uninitialized
`jump_from` slots during its backward-jump scan, so a residual value 7
in the slot of the jump-free three-opcode function COPY v0; NOP;
ADD v0 makes `lifetime_end` overshoot to 8 > 3 = number of opcodes,
violating the claimed bound for the non-ETERNAL variable v0. -/
theorem C9_counterexample_residual_reach :
    ((analyse_function fnThreeOps [-1, -1, 7]).variable_infos.getD 0
      defaultVariableInfo).flags.eternal = false ∧
    ((analyse_function fnThreeOps [-1, -1, 7]).variable_infos.getD 0
      defaultVariableInfo).lifetime_start = 0 ∧
    ((analyse_function fnThreeOps [-1, -1, 7]).variable_infos.getD 0
      defaultVariableInfo).lifetime_end = 8 ∧
    ¬(((analyse_function fnThreeOps [-1, -1, 7]).variable_infos.getD 0
      defaultVariableInfo).lifetime_end ≤ (fnThreeOps.opcodes.length : Int)) := by
  decide

/-- C9 (amended): provided the uninitialized `jump_from` residues are
negative (as the explicit -1 initialization of §9.2 would make them),
every non-ETERNAL variable of a well-formed function satisfies: if it
was never visited by the lifetime pass then both lifetime fields are
-1, and otherwise 0 ≤ lifetime_start ≤ lifetime_end ≤ |opcodes|; a
non-ETERNAL variable is visited exactly when some opcode references it
as a modifying or pure-assignment target (with the address-test typo,
primary-operand reads never reach the lifetime pass). -/
theorem C9_amended_lifetime_bounds (fn : Function) (junk : List Int)
    (hlen : junk.length = fn.opcodes.length) (hjunk : ∀ j ∈ junk, j < 0)
    (hvwf : VarRefsWF fn) (v : Nat)
    (het : ((analyse_function fn junk).variable_infos.getD v
      defaultVariableInfo).flags.eternal = false) :
    (((analyse_function fn junk).variable_infos.getD v
        defaultVariableInfo).lifetime_start = -1 →
      ((analyse_function fn junk).variable_infos.getD v
        defaultVariableInfo).lifetime_end = -1 ∧
      ∀ i, i < fn.opcodes.length → ¬TriggersVisit fn i v) ∧
    (((analyse_function fn junk).variable_infos.getD v
        defaultVariableInfo).lifetime_start ≠ -1 →
      0 ≤ ((analyse_function fn junk).variable_infos.getD v
        defaultVariableInfo).lifetime_start ∧
      ((analyse_function fn junk).variable_infos.getD v
        defaultVariableInfo).lifetime_start ≤
        ((analyse_function fn junk).variable_infos.getD v
          defaultVariableInfo).lifetime_end ∧
      ((analyse_function fn junk).variable_infos.getD v
        defaultVariableInfo).lifetime_end ≤ (fn.opcodes.length : Int) ∧
      ∃ i, i < fn.opcodes.length ∧ TriggersVisit fn i v) := by
  obtain ⟨a, b, c, d, e⟩ := analysis_VarINV fn junk hlen hjunk hvwf v
  constructor
  · intro hs
    exact ⟨b hs, e het hs⟩
  · intro hs
    obtain ⟨c1, c2, c3, _⟩ := c hs
    exact ⟨c1, by omega, c3, d hs⟩

theorem C9_amended_lifetime_bounds_witness :
    (((analyse_function fnThreeOps (List.replicate 3 (-1))).variable_infos.getD 0
        defaultVariableInfo).lifetime_start = -1 →
      ((analyse_function fnThreeOps (List.replicate 3 (-1))).variable_infos.getD 0
        defaultVariableInfo).lifetime_end = -1 ∧
      ∀ i, i < fnThreeOps.opcodes.length → ¬TriggersVisit fnThreeOps i 0) ∧
    (((analyse_function fnThreeOps (List.replicate 3 (-1))).variable_infos.getD 0
        defaultVariableInfo).lifetime_start ≠ -1 →
      0 ≤ ((analyse_function fnThreeOps (List.replicate 3 (-1))).variable_infos.getD 0
        defaultVariableInfo).lifetime_start ∧
      ((analyse_function fnThreeOps (List.replicate 3 (-1))).variable_infos.getD 0
        defaultVariableInfo).lifetime_start ≤
        ((analyse_function fnThreeOps (List.replicate 3 (-1))).variable_infos.getD 0
          defaultVariableInfo).lifetime_end ∧
      ((analyse_function fnThreeOps (List.replicate 3 (-1))).variable_infos.getD 0
        defaultVariableInfo).lifetime_end ≤ (fnThreeOps.opcodes.length : Int) ∧
      ∃ i, i < fnThreeOps.opcodes.length ∧ TriggersVisit fnThreeOps i 0) :=
  C9_amended_lifetime_bounds fnThreeOps (List.replicate 3 (-1)) (by decide)
    (by decide) (by decide) 0 (by decide)

/-! ## C8: jump-closure soundness -/

/-- C8 counterexample: in the function COPY v0; GOTO→6; ADD v0; NOPs,
variable v0 is not ETERNAL and has lifetime [0, 3), and the jump at
index 1 (inside the live range) targets index 6: `infos[6].jump_from =
1` lies in [lifetime_start, lifetime_end) while 6 < lifetime_end is
false — the claim's quantification is inverted with respect to what
the closure guarantees. -/
theorem C8_counterexample_forward_jump :
    ((analyse_function fnJumpOut (List.replicate 7 (-1))).variable_infos.getD 0
      defaultVariableInfo).flags.eternal = false ∧
    ((analyse_function fnJumpOut (List.replicate 7 (-1))).variable_infos.getD 0
        defaultVariableInfo).lifetime_start ≤
      ((analyse_function fnJumpOut (List.replicate 7 (-1))).infos.getD 6
        defaultOpcodeInfo).jump_from ∧
    ((analyse_function fnJumpOut (List.replicate 7 (-1))).infos.getD 6
        defaultOpcodeInfo).jump_from <
      ((analyse_function fnJumpOut (List.replicate 7 (-1))).variable_infos.getD 0
        defaultVariableInfo).lifetime_end ∧
    ¬((6 : Int) < ((analyse_function fnJumpOut (List.replicate 7 (-1))).variable_infos.getD 0
        defaultVariableInfo).lifetime_end) := by
  decide

/-- C8 (amended): what the closure actually guarantees, for negative
residues in the uninitialized slots: for every non-ETERNAL variable V
and every opcode index j strictly inside V's live range
(lifetime_start < j < lifetime_end), the latest jump source targeting
j, `infos[j].jump_from`, lies below lifetime_end — i.e. nothing at or
beyond lifetime_end jumps into the interior of the live range. -/
theorem C8_amended_jump_closure (fn : Function) (junk : List Int)
    (hlen : junk.length = fn.opcodes.length) (hjunk : ∀ j ∈ junk, j < 0)
    (hvwf : VarRefsWF fn) (v j : Nat)
    (het : ((analyse_function fn junk).variable_infos.getD v
      defaultVariableInfo).flags.eternal = false)
    (h1 : ((analyse_function fn junk).variable_infos.getD v
      defaultVariableInfo).lifetime_start < (j : Int))
    (h2 : (j : Int) < ((analyse_function fn junk).variable_infos.getD v
      defaultVariableInfo).lifetime_end) :
    ((analyse_function fn junk).infos.getD j defaultOpcodeInfo).jump_from <
      ((analyse_function fn junk).variable_infos.getD v
        defaultVariableInfo).lifetime_end := by
  obtain ⟨a, b, c, d, e⟩ := analysis_VarINV fn junk hlen hjunk hvwf v
  by_cases hs : ((analyse_function fn junk).variable_infos.getD v
      defaultVariableInfo).lifetime_start = -1
  · have hend := b hs
    rw [hend] at h2
    exfalso
    omega
  · exact (c hs).2.2.2 j h1 h2

theorem C8_amended_jump_closure_witness :
    ((analyse_function fnThreeOps (List.replicate 3 (-1))).infos.getD 1
        defaultOpcodeInfo).jump_from <
      ((analyse_function fnThreeOps (List.replicate 3 (-1))).variable_infos.getD 0
        defaultVariableInfo).lifetime_end :=
  C8_amended_jump_closure fnThreeOps (List.replicate 3 (-1)) (by decide) (by decide)
    (by decide) 0 1 (by decide) (by decide) (by decide)
